import Mathlib

/-!
Shallow embedding of the CSV validation engine
(`src/app/core/validator.py` of the Backend repository) together with the
facade `CsvValidator` and the default rule set assembled by the
`validate_dataset` endpoint.

Modelling conventions:
* A pandas cell value is one of a string, a (rational) number, or the
  missing value `NaN`/`None` (`Value.vNA`).  CSV-loaded tables contain
  strings and missing values; numbers cover numeric columns.
* A pandas `Series` arriving at a validator is a list of
  (row label, value) pairs; the mask it returns is a list of
  (row label, Bool) pairs, mirroring that the Python validators build
  `pd.Series(mask_list, index=series.index)`.
* `pd.to_numeric(..., errors='coerce')` is modelled by `toNumeric`,
  a decimal parser (sign, digits, optional fraction, optional exponent);
  the special spellings `inf`/`nan` are out of scope of the claims and
  are treated as unparsable.
* The regular expressions are compiled by hand: the date regex is a
  fixed 19-character shape, `\d` is modelled as an ASCII digit;
  `ipaddress.IPv4Address` is modelled by the dotted-quad grammar the
  CPython parser accepts (1-3 ASCII digits per octet, no leading zero
  except "0" itself, value at most 255).
* Python exceptions at the four `try/except` sites of
  `apply_validations_inplace` are modelled with `Except Unit`:
  caller-supplied validators may raise, and the pandas cell read /
  batched write are abstracted in `EngineOps` so that a raising
  primitive is expressible (`pandasOps` is the non-raising behaviour).
-/

/-- A pandas cell value: a string, a number, or missing (`NaN`). -/
inductive Value where
  | vStr (s : String)
  | vNum (q : ℚ)
  | vNA
deriving DecidableEq, Repr

/-- Model of `pd.notna` on a scalar. -/
def Value.notna : Value → Bool
  | .vNA => false
  | _ => true

/-- Model of `pd.isna` on a scalar. -/
def Value.isna : Value → Bool
  | .vNA => true
  | _ => false

/-- Numeric value of a list of ASCII digits, most significant first. -/
def digitsVal (cs : List Char) : Nat :=
  cs.foldl (fun n c => 10 * n + (c.toNat - 48)) 0

/-- Consume an optional leading sign, returning the sign and the rest. -/
def parseSign : List Char → Int × List Char
  | '+' :: t => (1, t)
  | '-' :: t => (-1, t)
  | cs => (1, cs)

/-- Parse an optionally signed nonempty digit string (an exponent). -/
def parseSignedDigits (cs : List Char) : Option Int :=
  let st := parseSign cs
  if st.2 ≠ [] ∧ st.2.all Char.isDigit then some (st.1 * digitsVal st.2) else none

/-- Parse the part after the mantissa: empty, or an exponent marker
followed by a signed digit string. -/
def parseExpPart : List Char → Option Int
  | [] => some 0
  | 'e' :: t => parseSignedDigits t
  | 'E' :: t => parseSignedDigits t
  | _ => none

/-- Decimal parser modelling how `pd.to_numeric` converts a (trimmed)
string: optional sign, digits with an optional single decimal point
(at least one digit overall), and an optional exponent. -/
def parseDecimal (cs : List Char) : Option ℚ :=
  let st := parseSign cs
  let ip := st.2.takeWhile Char.isDigit
  let t2 := st.2.drop ip.length
  let fp := match t2 with
    | '.' :: r => r.takeWhile Char.isDigit
    | _ => []
  let t3 := match t2 with
    | '.' :: r => r.drop fp.length
    | _ => t2
  if ip.isEmpty && fp.isEmpty then none
  else match parseExpPart t3 with
    | none => none
    | some e =>
      let m : Int := st.1 * ((digitsVal ip : Int) * (10 : Int) ^ fp.length + (digitsVal fp : Int))
      let k : Int := e - (fp.length : Int)
      if 0 ≤ k then some (mkRat (m * (10 : Int) ^ k.toNat) 1)
      else some (mkRat m ((10 : Nat) ^ (-k).toNat))

/-- Model of Python `str.strip` on a list of characters. -/
def trimWs (cs : List Char) : List Char :=
  ((cs.dropWhile Char.isWhitespace).reverse.dropWhile Char.isWhitespace).reverse

/-- Model of `pd.to_numeric(..., errors='coerce')` on one cell:
numbers pass through, missing stays missing (`none`), strings are
parsed as decimals after trimming. -/
def toNumeric : Value → Option ℚ
  | .vNum q => some q
  | .vNA => none
  | .vStr s => parseDecimal (trimWs s.data)

/-- The 19 characters of a candidate `YYYY-MM-DD HH:MM:SS` string. -/
structure DateFields where
  (y1 y2 y3 y4 sep1 m1 m2 sep2 d1 d2 sp h1 h2 col1 n1 n2 col2 t1 t2 : Char)
deriving DecidableEq, Repr

/-- Decompose a string into the fixed 19-character date shape, if it
has exactly 19 characters. -/
def dateFields? : List Char → Option DateFields
  | [y1, y2, y3, y4, sep1, m1, m2, sep2, d1, d2, sp, h1, h2, col1, n1, n2, col2, t1, t2] =>
      some ⟨y1, y2, y3, y4, sep1, m1, m2, sep2, d1, d2, sp, h1, h2, col1, n1, n2, col2, t1, t2⟩
  | _ => none

/-- The month alternation `0[1-9]|1[0-2]` of the date regex. -/
def monthOk (a b : Char) : Bool :=
  (a == '0' && decide ('1' ≤ b) && decide (b ≤ '9')) ||
  (a == '1' && decide ('0' ≤ b) && decide (b ≤ '2'))

/-- The day alternation `0[1-9]|[12]\d|3[01]` of the date regex. -/
def dayOk (a b : Char) : Bool :=
  (a == '0' && decide ('1' ≤ b) && decide (b ≤ '9')) ||
  ((a == '1' || a == '2') && b.isDigit) ||
  (a == '3' && (b == '0' || b == '1'))

/-- The hour alternation `[01]\d|2[0-3]` of the date regex. -/
def hourOk (a b : Char) : Bool :=
  ((a == '0' || a == '1') && b.isDigit) ||
  (a == '2' && decide ('0' ≤ b) && decide (b ≤ '3'))

/-- The minute/second alternation `[0-5]\d` of the date regex. -/
def minSecOk (a b : Char) : Bool :=
  decide ('0' ≤ a) && decide (a ≤ '5') && b.isDigit

/-- Character-level checks of the date regex, given the 19-char shape. -/
def regexFieldsOk (f : DateFields) : Bool :=
  f.y1.isDigit && f.y2.isDigit && f.y3.isDigit && f.y4.isDigit &&
  f.sep1 == '-' && monthOk f.m1 f.m2 && f.sep2 == '-' && dayOk f.d1 f.d2 &&
  f.sp == ' ' && hourOk f.h1 f.h2 && f.col1 == ':' && minSecOk f.n1 f.n2 &&
  f.col2 == ':' && minSecOk f.t1 f.t2

/-- Model of `regex.fullmatch` for the pattern
`^(\d{4})-(0[1-9]|1[0-2])-(0[1-9]|[12]\d|3[01]) ([01]\d|2[0-3]):([0-5]\d):([0-5]\d)$`. -/
def matchesDatePattern (cs : List Char) : Bool :=
  match dateFields? cs with
  | some f => regexFieldsOk f
  | none => false

/-- Loop body of `is_invalid_date`: missing is not invalid, a string is
invalid unless its trimmed text fully matches the date pattern, any
other (non-string, non-missing) value is invalid. -/
def is_invalid_date_item : Value → Bool
  | .vNA => false
  | .vStr s => !(matchesDatePattern (trimWs s.data))
  | .vNum _ => true

/-- One cell of the final mask of `is_invalid_date`, including the
trailing `& series.notna()` of the Python code. -/
def is_invalid_date_cell (v : Value) : Bool :=
  is_invalid_date_item v && v.notna

/-- Model of the `is_invalid_date` validator on a series. -/
def is_invalid_date (series : List (Nat × Value)) : List (Nat × Bool) :=
  series.map (fun iv => (iv.1, is_invalid_date_cell iv.2))

/-- Model of one octet accepted by `ipaddress.IPv4Address`: one to
three ASCII digits, no leading zero unless the octet is exactly "0",
and value at most 255. -/
def isValidOctet (t : List Char) : Bool :=
  !t.isEmpty && t.all Char.isDigit && decide (t.length ≤ 3) &&
  (decide (t.length = 1) || !(t.head? == some '0')) &&
  decide (digitsVal t ≤ 255)

/-- Split a list of characters at every dot, like `str.split(".")`. -/
def splitDot : List Char → List (List Char)
  | [] => [[]]
  | '.' :: t => [] :: splitDot t
  | c :: t =>
    match splitDot t with
    | h :: r => (c :: h) :: r
    | [] => [[c]]

/-- Model of `ipaddress.IPv4Address` applied to a string: exactly four
octets separated by dots. -/
def isValidIPv4String (cs : List Char) : Bool :=
  match splitDot cs with
  | [a, b, c, d] => isValidOctet a && isValidOctet b && isValidOctet c && isValidOctet d
  | _ => false

/-- One cell of the mask of `is_invalid_ipv4`: missing is not invalid,
a string is invalid unless its trimmed text parses as an IPv4 address,
any other non-missing value is invalid. -/
def is_invalid_ipv4_cell : Value → Bool
  | .vNA => false
  | .vStr s => !(isValidIPv4String (trimWs s.data))
  | .vNum _ => true

/-- Model of the `is_invalid_ipv4` validator on a series. -/
def is_invalid_ipv4 (series : List (Nat × Value)) : List (Nat × Bool) :=
  series.map (fun iv => (iv.1, is_invalid_ipv4_cell iv.2))

/-- One cell of the mask of `is_invalid_positive_numeric`:
`(numeric_vals.isna() & series.notna()) | (numeric_vals.notna() & (numeric_vals <= 0))`. -/
def is_invalid_positive_numeric_cell (v : Value) : Bool :=
  match toNumeric v with
  | none => v.notna
  | some q => decide (q ≤ 0)

/-- Model of the `is_invalid_positive_numeric` validator on a series. -/
def is_invalid_positive_numeric (series : List (Nat × Value)) : List (Nat × Bool) :=
  series.map (fun iv => (iv.1, is_invalid_positive_numeric_cell iv.2))



/-- One entry of the Modification Report
(`ModificationRecord` dataclass of the source). -/
structure ModificationRecord where
  index : Nat
  original_value : Value
  replaced_value : Value
  validator : String
deriving DecidableEq, Repr

/-- The Modification Report: an insertion-ordered mapping from column
name to the list of records appended for that column. -/
abbrev Report := List (String × List ModificationRecord)

/-- A pandas DataFrame: a row-label index and named columns of cells. -/
structure DFrame where
  index : List Nat
  cols : List (String × List Value)
deriving DecidableEq, Repr

/-- Well-formedness: every column has exactly one cell per row label. -/
def DFrame.WF (df : DFrame) : Prop :=
  ∀ p ∈ df.cols, p.2.length = df.index.length

instance : DecidablePred DFrame.WF := fun df =>
  inferInstanceAs (Decidable (∀ p ∈ df.cols, p.2.length = df.index.length))

/-- First-match association lookup (dict / first matching column). -/
def assoc {α β : Type} [DecidableEq α] : List (α × β) → α → Option β
  | [], _ => none
  | (a, b) :: t, k => if a = k then some b else assoc t k

/-- Model of `df[col]` / `col in df.columns`: the first column named `c`. -/
def DFrame.getCol (df : DFrame) (c : String) : Option (List Value) :=
  assoc df.cols c

/-- Replace the cell list of the first column named `c`. -/
def updateCol : List (String × List Value) → String → (List Value → List Value) →
    List (String × List Value)
  | [], _, _ => []
  | (n, vs) :: t, c, f => if n = c then (n, f vs) :: t else (n, vs) :: updateCol t c f

/-- Model of the batched write `df.loc[labels, c] = r`: every cell of
column `c` whose row label is in `labels` becomes `r`. -/
def setCells (df : DFrame) (c : String) (labels : List Nat) (r : Value) : DFrame :=
  ⟨df.index,
   updateCol df.cols c (fun vals =>
     List.zipWith (fun i v => if labels.contains i then r else v) df.index vals)⟩

/-- Model of the scalar read `df.loc[i, c]` (first row with label `i`). -/
def pandasRead (df : DFrame) (i : Nat) (c : String) : Except Unit Value :=
  match df.getCol c with
  | none => Except.error ()
  | some vals =>
    match assoc (df.index.zip vals) i with
    | some v => Except.ok v
    | none => Except.error ()

/-- The pandas primitives used inside the engine's `try/except` blocks.
Each may raise (`Except.error`), mirroring that the Python calls can. -/
structure EngineOps where
  readCell : DFrame → Nat → String → Except Unit Value
  writeCells : DFrame → String → List Nat → Value → Except Unit DFrame

/-- The normal, non-raising behaviour of the pandas primitives. -/
def pandasOps : EngineOps :=
  ⟨pandasRead, fun df c labels r => Except.ok (setCells df c labels r)⟩

/-- A validation rule function together with its `__name__`.  The
function receives the column's series and may raise. -/
structure Validator where
  name : String
  fn : List (Nat × Value) → Except Unit (List (Nat × Bool))

/-- A validator built from a per-cell predicate, as all built-in
validators are: the mask keeps the series' own labels and never raises. -/
def cellRule (name : String) (p : Value → Bool) : Validator :=
  ⟨name, fun series => Except.ok (series.map (fun iv => (iv.1, p iv.2)))⟩

/-- The `is_invalid_date` validator as passed in a rule set. -/
def dateValidator : Validator :=
  ⟨"is_invalid_date", fun series => Except.ok (is_invalid_date series)⟩

/-- The `is_invalid_ipv4` validator as passed in a rule set. -/
def ipv4Validator : Validator :=
  ⟨"is_invalid_ipv4", fun series => Except.ok (is_invalid_ipv4 series)⟩

/-- The `is_invalid_positive_numeric` validator as passed in a rule set. -/
def posNumValidator : Validator :=
  ⟨"is_invalid_positive_numeric", fun series => Except.ok (is_invalid_positive_numeric series)⟩

/-- Mask alignment, steps 3 of the engine: accept the mask if its
labels equal the table's; otherwise, when the lengths agree, attempt
`reindex` (which fails on duplicate mask labels, and whose missing
labels make the subsequent boolean indexing raise); otherwise fail. -/
def alignMask (idx : List Nat) (maskS : List (Nat × Bool)) : Option (List Bool) :=
  if maskS.map Prod.fst = idx then some (maskS.map Prod.snd)
  else if maskS.length = idx.length then
    if (maskS.map Prod.fst).Nodup then idx.mapM (fun i => assoc maskS i) else none
  else none

/-- Row labels whose mask entry is `true`
(`df.index[invalid_mask].tolist()`). -/
def invalidLabels (idx : List Nat) (mask : List Bool) : List Nat :=
  ((idx.zip mask).filter Prod.snd).map Prod.fst

/-- Append records to the (unique) existing entry for key `c`. -/
def appendAt : Report → String → List ModificationRecord → Report
  | [], _, _ => []
  | (n, rs) :: t, c, recs => if n = c then (n, rs ++ recs) :: t else (n, rs) :: appendAt t c recs

/-- Append records for column `c` to the report, creating the key at
the end on first use (Python dict insertion order). -/
def reportAppend (rep : Report) (c : String) (recs : List ModificationRecord) : Report :=
  match assoc rep c with
  | some _ => appendAt rep c recs
  | none => rep ++ [(c, recs)]

/-- The records the report holds for column `c`. -/
def reportRecs (rep : Report) (c : String) : List ModificationRecord :=
  (assoc rep c).getD []

/-- The body of the per-column loop of `apply_validations_inplace`:
skip absent columns; run the validator (skip on exception); align the
mask (skip on failure); if any label is invalid, append one record per
locatable invalid label (skipping, per record, labels whose read
raises), then perform the batched write (on write exception the table
is left untouched but the appended records remain). -/
def recsFor (ops : EngineOps) (df : DFrame) (c : String) (repl : Value) (nm : String)
    (labels : List Nat) : List ModificationRecord :=
  labels.filterMap (fun i =>
    match ops.readCell df i c with
    | Except.ok ov => some ⟨i, ov, repl, nm⟩
    | Except.error _ => none)

def processColumn (ops : EngineOps) (repl : Value) (vd : Validator)
    (st : DFrame × Report) (c : String) : DFrame × Report :=
  match st.1.getCol c with
  | none => st
  | some vals =>
    match vd.fn (st.1.index.zip vals) with
    | Except.error _ => st
    | Except.ok maskS =>
      match alignMask st.1.index maskS with
      | none => st
      | some mask =>
        let labels := invalidLabels st.1.index mask
        if labels.isEmpty then st
        else
          let rep2 := reportAppend st.2 c (recsFor ops st.1 c repl vd.name labels)
          match ops.writeCells st.1 c labels repl with
          | Except.ok df2 => (df2, rep2)
          | Except.error _ => (st.1, rep2)

/-- The two nested loops of `apply_validations_inplace`, started from
an arbitrary table/report state. -/
def runRules (ops : EngineOps) (repl : Value) (rules : List (Validator × List String))
    (st : DFrame × Report) : DFrame × Report :=
  rules.foldl (fun s r => r.2.foldl (processColumn ops repl r.1) s) st

/-- Model of `apply_validations_inplace`: iterate the rule set in
order, per rule iterating its target columns, and return the mutated
table together with the Modification Report built along the way. -/
def apply_validations_inplace (ops : EngineOps) (df : DFrame)
    (rules : List (Validator × List String)) (repl : Value) : DFrame × Report :=
  runRules ops repl rules (df, [])

/-- Cell transform of `remove_microseconds_regex_inplace`:
`fillna('')`, `astype(str)`, then drop one trailing `\.\d+` suffix. -/
def cellToStr (v : Value) : String :=
  match v with
  | .vNA => ""
  | .vStr s => s
  | .vNum q => toString q

/-- Drop one trailing group of a literal dot followed by one or more
digits (`str.replace(r"\.\d+$", "", regex=True)`): the anchored match
is a nonempty all-digit suffix immediately preceded by a dot. -/
def stripFracSuffix (s : String) : String :=
  let r := s.data.reverse
  if (r.takeWhile Char.isDigit) ≠ [] ∧ (r.dropWhile Char.isDigit).head? = some '.'
  then String.mk (r.dropWhile Char.isDigit).tail.reverse else s

/-- The per-cell pipeline of `remove_microseconds_regex_inplace`. -/
def stripCell (v : Value) : Value :=
  Value.vStr (stripFracSuffix (cellToStr v))

/-- One iteration of the column loop of
`remove_microseconds_regex_inplace`: transform the column if present,
otherwise skip with a warning. -/
def stripColStep (d : DFrame) (c : String) : DFrame :=
  if (d.getCol c).isSome then ⟨d.index, updateCol d.cols c (fun vals => vals.map stripCell)⟩
  else d

/-- Model of `remove_microseconds_regex_inplace`: for each listed
column present in the table, map the strip pipeline over its cells;
absent columns are skipped with a warning. -/
def remove_microseconds_regex_inplace (df : DFrame) (columns : List String) : DFrame :=
  columns.foldl stripColStep df

/-- The facade: holds one table (`self._dataframe`). -/
structure CsvValidator where
  _dataframe : DFrame
deriving DecidableEq, Repr

/-- Model of `CsvValidator.validate`: run the engine in place on the
held table and return the mutated table; the report the engine
returns is dropped.  In-place mutation is state passing: the result is
the facade's new state together with the returned table. -/
def CsvValidator.validate (cv : CsvValidator) (rules : List (Validator × List String))
    (repl : Value) : CsvValidator × DFrame :=
  let df2 := (apply_validations_inplace pandasOps cv._dataframe rules repl).1
  (⟨df2⟩, df2)

/-- Model of `CsvValidator.get_dataframe`. -/
def CsvValidator.get_dataframe (cv : CsvValidator) : DFrame :=
  cv._dataframe

/-- The default rule set assembled by the `validate_dataset` endpoint. -/
def default_rules : List (Validator × List String) :=
  [(ipv4Validator, ["ip"]),
   (posNumValidator, ["cpu_cores", "cpu_freq", "ram", "total_volume"]),
   (dateValidator, ["created_on", "updated_on"])]

/-- The default replacement value, a single space. -/
def default_replacement : Value := Value.vStr " "

/-- An `EngineOps` whose batched write raises, as the pandas assignment
`df.loc[labels, col] = value` can (for example on an incompatible
dtype); reads behave normally. -/
def failingWriteOps : EngineOps :=
  ⟨pandasRead, fun _ _ _ _ => Except.error ()⟩

/-- Concrete two-row table used to exhibit the write-failure behaviour. -/
def dfC2 : DFrame :=
  ⟨[0, 1], [("ip", [Value.vStr "bad", Value.vStr "10.0.0.1"])]⟩

/-- A rule given by a per-cell predicate, the shape of every built-in
validator (each maps a predicate over the series' cells). -/
structure CellRule where
  name : String
  pred : Value → Bool

/-- Interpret per-cell rules as a rule set for the engine. -/
def toRules (prs : List (CellRule × List String)) : List (Validator × List String) :=
  prs.map (fun r => (cellRule r.1.name r.1.pred, r.2))

/-- After a per-cell rule has run over column `c`, every cell is either
the replacement value or a value its predicate accepts. -/
def ColStable (repl : Value) (p : Value → Bool) (c : String) (df : DFrame) : Prop :=
  ∀ vals, df.getCol c = some vals → ∀ v ∈ vals, v = repl ∨ p v = false

/-! ### Specification-side predicates (from the claims' wording) -/

/-- Numeric value of a two-digit field, per the spec's reading of the
date pattern. -/
def twoDigitVal (a b : Char) : Nat :=
  10 * (a.toNat - 48) + (b.toNat - 48)

/-- The spec's description of the date pattern: 19 characters shaped
`YYYY-MM-DD HH:MM:SS`, all fields ASCII digits, month 01-12, day 01-31
uniformly regardless of month, hours 00-23, minutes and seconds 00-59. -/
def specFieldsOk (f : DateFields) : Bool :=
  f.y1.isDigit && f.y2.isDigit && f.y3.isDigit && f.y4.isDigit &&
  f.sep1 == '-' &&
  (f.m1.isDigit && f.m2.isDigit &&
    decide (1 ≤ twoDigitVal f.m1 f.m2) && decide (twoDigitVal f.m1 f.m2 ≤ 12)) &&
  f.sep2 == '-' &&
  (f.d1.isDigit && f.d2.isDigit &&
    decide (1 ≤ twoDigitVal f.d1 f.d2) && decide (twoDigitVal f.d1 f.d2 ≤ 31)) &&
  f.sp == ' ' &&
  (f.h1.isDigit && f.h2.isDigit && decide (twoDigitVal f.h1 f.h2 ≤ 23)) &&
  f.col1 == ':' &&
  (f.n1.isDigit && f.n2.isDigit && decide (twoDigitVal f.n1 f.n2 ≤ 59)) &&
  f.col2 == ':' &&
  (f.t1.isDigit && f.t2.isDigit && decide (twoDigitVal f.t1 f.t2 ≤ 59))

/-- Spec-side date acceptance. -/
def specDateOk (cs : List Char) : Bool :=
  match dateFields? cs with
  | some f => specFieldsOk f
  | none => false

/-- The claim's cell-level date-invalidity description: non-missing and
(not a string, or the trimmed text does not satisfy the pattern). -/
def specDateInvalidCell : Value → Bool
  | .vNA => false
  | .vStr s => !(specDateOk (trimWs s.data))
  | .vNum _ => true

/-- Spec-side missing test. -/
def specMissing : Value → Bool
  | .vNA => true
  | _ => false

/-- The claim's description of one octet: nonempty ASCII digits with
value at most 255, no leading zero except for "0" itself (no explicit
length bound — it follows). -/
def specOctetOk (t : List Char) : Bool :=
  !t.isEmpty && t.all Char.isDigit && decide (digitsVal t ≤ 255) &&
  (decide (t = ['0']) || !(t.head? == some '0'))

/-- Spec-side dotted-quad acceptance. -/
def specIPv4Ok (cs : List Char) : Bool :=
  match splitDot cs with
  | [a, b, c, d] => specOctetOk a && specOctetOk b && specOctetOk c && specOctetOk d
  | _ => false

/-- The claim's cell-level IPv4-invalidity description. -/
def specIPv4InvalidCell : Value → Bool
  | .vNA => false
  | .vStr s => !(specIPv4Ok (trimWs s.data))
  | .vNum _ => true

/-- Concrete one-row table with a multi-dot value, for the stripper. -/
def dfC8 : DFrame := ⟨[0], [("c", [Value.vStr "1.2.3"])]⟩

/-- A one-row table over the default target columns in which every
cell has already been replaced by the default replacement value. -/
def dfC9 : DFrame :=
  ⟨[0],
   [("ip", [Value.vStr " "]), ("cpu_cores", [Value.vStr " "]),
    ("cpu_freq", [Value.vStr " "]), ("ram", [Value.vStr " "]),
    ("total_volume", [Value.vStr " "]), ("created_on", [Value.vStr " "]),
    ("updated_on", [Value.vStr " "])]⟩

/-- The report a second default pass produces over `dfC9`: every
previously replaced cell is re-recorded. -/
def reportC9 : Report :=
  [("ip", [⟨0, Value.vStr " ", Value.vStr " ", "is_invalid_ipv4"⟩]),
   ("cpu_cores", [⟨0, Value.vStr " ", Value.vStr " ", "is_invalid_positive_numeric"⟩]),
   ("cpu_freq", [⟨0, Value.vStr " ", Value.vStr " ", "is_invalid_positive_numeric"⟩]),
   ("ram", [⟨0, Value.vStr " ", Value.vStr " ", "is_invalid_positive_numeric"⟩]),
   ("total_volume", [⟨0, Value.vStr " ", Value.vStr " ", "is_invalid_positive_numeric"⟩]),
   ("created_on", [⟨0, Value.vStr " ", Value.vStr " ", "is_invalid_date"⟩]),
   ("updated_on", [⟨0, Value.vStr " ", Value.vStr " ", "is_invalid_date"⟩])]

/-- Concrete frames and rule data used to instantiate the claims. -/
def dfW1 : DFrame := ⟨[0, 1], [("ip", [Value.vStr "8.8.8.8", Value.vStr "bad"])]⟩

/-- The cells of `dfW1`'s only column. -/
def valsW1 : List Value := [Value.vStr "8.8.8.8", Value.vStr "bad"]

/-- The mask the IPv4 validator returns over `dfW1`. -/
def maskW1 : List (Nat × Bool) := [(0, false), (1, true)]

/-- A table with a column no default rule targets. -/
def dfW3 : DFrame := ⟨[0], [("a", [Value.vStr "x"]), ("ip", [Value.vStr "bad"])]⟩

/-- A single-rule per-cell rule set over one numeric column. -/
def prsW4 : List (CellRule × List String) :=
  [(⟨"is_invalid_positive_numeric", is_invalid_positive_numeric_cell⟩, ["cpu_cores"])]

/-- A one-row table with an unparsable numeric cell. -/
def dfW4 : DFrame := ⟨[0], [("cpu_cores", [Value.vStr "abc"])]⟩

/-- A one-row table with a fractional-seconds timestamp. -/
def dfW8 : DFrame := ⟨[0], [("created_on", [Value.vStr "2023-01-01 10:00:00.500"])]⟩

/-! ### Helper lemmas about the association-list primitives -/

theorem assoc_append {α β : Type} [DecidableEq α] (l1 l2 : List (α × β)) (k : α) :
    assoc (l1 ++ l2) k = (assoc l1 k).or (assoc l2 k) := by
  induction l1 with
  | nil => simp [assoc]
  | cons p t ih =>
    by_cases h : p.1 = k <;> simp [assoc, h, ih]

theorem updateCol_assoc_self (cols : List (String × List Value)) (c : String)
    (f : List Value → List Value) :
    assoc (updateCol cols c f) c = (assoc cols c).map f := by
  induction cols with
  | nil => simp [assoc, updateCol]
  | cons p t ih =>
    obtain ⟨n, vs⟩ := p
    by_cases h : n = c
    · subst h
      simp [updateCol, assoc]
    · simp [updateCol, assoc, h, ih]

theorem updateCol_assoc_ne (cols : List (String × List Value)) (c c' : String)
    (f : List Value → List Value) (h : c' ≠ c) :
    assoc (updateCol cols c f) c' = assoc cols c' := by
  induction cols with
  | nil => simp [updateCol]
  | cons p t ih =>
    obtain ⟨n, vs⟩ := p
    by_cases hp : n = c
    · subst hp
      have hnc : n ≠ c' := fun hh => h (hh ▸ rfl)
      simp [updateCol, assoc, hnc]
    · by_cases hp' : n = c' <;> simp [updateCol, assoc, hp, hp', h, ih]

theorem getCol_setCells_self (df : DFrame) (c : String) (labels : List Nat) (r : Value) :
    (setCells df c labels r).getCol c =
      (df.getCol c).map
        (fun vals => List.zipWith (fun i v => if labels.contains i then r else v) df.index vals) := by
  simp [setCells, DFrame.getCol, updateCol_assoc_self]

theorem getCol_setCells_ne (df : DFrame) (c c' : String) (labels : List Nat) (r : Value)
    (h : c' ≠ c) : (setCells df c labels r).getCol c' = df.getCol c' := by
  simp [setCells, DFrame.getCol, updateCol_assoc_ne _ _ _ _ h]

theorem setCells_index (df : DFrame) (c : String) (labels : List Nat) (r : Value) :
    (setCells df c labels r).index = df.index := rfl

theorem assoc_appendAt_self (rep : Report) (c : String) (recs l : List ModificationRecord)
    (h : assoc rep c = some l) :
    assoc (appendAt rep c recs) c = some (l ++ recs) := by
  induction rep with
  | nil => simp [assoc] at h
  | cons p t ih =>
    obtain ⟨n, rs⟩ := p
    by_cases hp : n = c
    · subst hp
      simp [assoc] at h
      simp [appendAt, assoc, h]
    · simp [assoc, hp] at h
      simp [appendAt, assoc, hp, ih h]

theorem assoc_appendAt_ne (rep : Report) (c c' : String) (recs : List ModificationRecord)
    (h : c' ≠ c) :
    assoc (appendAt rep c recs) c' = assoc rep c' := by
  induction rep with
  | nil => simp [appendAt]
  | cons p t ih =>
    obtain ⟨n, rs⟩ := p
    by_cases hp : n = c
    · subst hp
      have hnc : n ≠ c' := fun hh => h (hh ▸ rfl)
      simp [appendAt, assoc, hnc, ih]
    · by_cases hp' : n = c' <;> simp [appendAt, assoc, hp, hp', h, ih]

theorem reportRecs_append_self (rep : Report) (c : String) (recs : List ModificationRecord) :
    reportRecs (reportAppend rep c recs) c = reportRecs rep c ++ recs := by
  unfold reportAppend reportRecs
  cases h : assoc rep c with
  | none => simp [h, assoc_append, assoc]
  | some l => simp [h, assoc_appendAt_self rep c recs l h]

theorem reportRecs_append_ne (rep : Report) (c c' : String) (recs : List ModificationRecord)
    (h : c' ≠ c) : reportRecs (reportAppend rep c recs) c' = reportRecs rep c' := by
  unfold reportAppend reportRecs
  cases hh : assoc rep c with
  | none =>
    have hcc : ¬(c = c') := fun hh2 => h hh2.symm
    simp only [hh, assoc_append, assoc, hcc, if_false]
    cases assoc rep c' <;> simp [Option.or]
  | some l => simp [hh, assoc_appendAt_ne rep c c' recs h]

/-! ### Equation lemmas for the per-column engine step -/

theorem processColumn_absent {ops : EngineOps} {repl : Value} {vd : Validator}
    {st : DFrame × Report} {c : String} (h : st.1.getCol c = none) :
    processColumn ops repl vd st c = st := by
  simp only [processColumn, h]

theorem processColumn_fnError {ops : EngineOps} {repl : Value} {vd : Validator}
    {st : DFrame × Report} {c : String} {vals : List Value} {e : Unit}
    (hcol : st.1.getCol c = some vals)
    (hfn : vd.fn (st.1.index.zip vals) = Except.error e) :
    processColumn ops repl vd st c = st := by
  simp only [processColumn, hcol, hfn]

theorem processColumn_alignNone {ops : EngineOps} {repl : Value} {vd : Validator}
    {st : DFrame × Report} {c : String} {vals : List Value} {maskS : List (Nat × Bool)}
    (hcol : st.1.getCol c = some vals)
    (hfn : vd.fn (st.1.index.zip vals) = Except.ok maskS)
    (hal : alignMask st.1.index maskS = none) :
    processColumn ops repl vd st c = st := by
  simp only [processColumn, hcol, hfn, hal]

theorem processColumn_emptyLabels {ops : EngineOps} {repl : Value} {vd : Validator}
    {st : DFrame × Report} {c : String} {vals : List Value} {maskS : List (Nat × Bool)}
    {mask : List Bool}
    (hcol : st.1.getCol c = some vals)
    (hfn : vd.fn (st.1.index.zip vals) = Except.ok maskS)
    (hal : alignMask st.1.index maskS = some mask)
    (hemp : invalidLabels st.1.index mask = []) :
    processColumn ops repl vd st c = st := by
  simp only [processColumn, hcol, hfn, hal, hemp]
  simp

theorem processColumn_writeOk {ops : EngineOps} {repl : Value} {vd : Validator}
    {st : DFrame × Report} {c : String} {vals : List Value} {maskS : List (Nat × Bool)}
    {mask : List Bool} {df2 : DFrame}
    (hcol : st.1.getCol c = some vals)
    (hfn : vd.fn (st.1.index.zip vals) = Except.ok maskS)
    (hal : alignMask st.1.index maskS = some mask)
    (hne : invalidLabels st.1.index mask ≠ [])
    (hw : ops.writeCells st.1 c (invalidLabels st.1.index mask) repl = Except.ok df2) :
    processColumn ops repl vd st c =
      (df2, reportAppend st.2 c
        (recsFor ops st.1 c repl vd.name (invalidLabels st.1.index mask))) := by
  simp only [processColumn, hcol, hfn, hal, hw, List.isEmpty_iff]
  simp [hne]

theorem processColumn_writeError {ops : EngineOps} {repl : Value} {vd : Validator}
    {st : DFrame × Report} {c : String} {vals : List Value} {maskS : List (Nat × Bool)}
    {mask : List Bool} {e : Unit}
    (hcol : st.1.getCol c = some vals)
    (hfn : vd.fn (st.1.index.zip vals) = Except.ok maskS)
    (hal : alignMask st.1.index maskS = some mask)
    (hne : invalidLabels st.1.index mask ≠ [])
    (hw : ops.writeCells st.1 c (invalidLabels st.1.index mask) repl = Except.error e) :
    processColumn ops repl vd st c =
      (st.1, reportAppend st.2 c
        (recsFor ops st.1 c repl vd.name (invalidLabels st.1.index mask))) := by
  simp only [processColumn, hcol, hfn, hal, hw, List.isEmpty_iff]
  simp [hne]

/-! ### Positional lemmas about masks, labels and records -/

theorem zip_getElem?_eq_some {α β : Type} (l1 : List α) (l2 : List β) (k : Nat)
    (a : α) (b : β) :
    (l1.zip l2)[k]? = some (a, b) ↔ l1[k]? = some a ∧ l2[k]? = some b := by
  rw [List.zip, List.getElem?_zipWith]
  cases h1 : l1[k]? with
  | none => simp
  | some x =>
    cases h2 : l2[k]? with
    | none => simp
    | some y => simp [Prod.ext_iff]

theorem mem_invalidLabels_iff (idx : List Nat) (mask : List Bool) (i : Nat) :
    i ∈ invalidLabels idx mask ↔ ∃ k : Nat, idx[k]? = some i ∧ mask[k]? = some true := by
  unfold invalidLabels
  simp only [List.mem_map, List.mem_filter]
  constructor
  · rintro ⟨⟨a, b⟩, ⟨hz, hb⟩, rfl⟩
    rcases List.mem_iff_getElem?.mp hz with ⟨k, hk⟩
    refine ⟨k, ?_⟩
    have h2 := (zip_getElem?_eq_some idx mask k a b).mp hk
    simp only [decide_eq_true_eq] at hb
    exact ⟨h2.1, hb ▸ h2.2⟩
  · rintro ⟨k, h1, h2⟩
    refine ⟨(i, true), ⟨?_, rfl⟩, rfl⟩
    exact List.mem_iff_getElem?.mpr ⟨k, (zip_getElem?_eq_some idx mask k i true).mpr ⟨h1, h2⟩⟩

theorem invalidLabels_sub (idx : List Nat) (mask : List Bool) (i : Nat)
    (h : i ∈ invalidLabels idx mask) : i ∈ idx := by
  rcases (mem_invalidLabels_iff idx mask i).mp h with ⟨k, h1, _⟩
  exact List.getElem?_mem h1

theorem invalidLabels_eq_nil (idx : List Nat) (mask : List Bool)
    (h : ∀ b ∈ mask, b = false) : invalidLabels idx mask = [] := by
  unfold invalidLabels
  rw [List.filter_eq_nil_iff.mpr, List.map_nil]
  rintro ⟨a, b⟩ hz
  have hb := (List.of_mem_zip hz).2
  simp [h b hb]

theorem assoc_zip_isSome (idx : List Nat) (vals : List Value) (i : Nat)
    (hlen : idx.length ≤ vals.length) (hmem : i ∈ idx) :
    ∃ v, assoc (idx.zip vals) i = some v := by
  induction idx generalizing vals with
  | nil => simp at hmem
  | cons a it ih =>
    cases vals with
    | nil => simp at hlen
    | cons v0 vt =>
      by_cases hai : a = i
      · exact ⟨v0, by simp [assoc, hai]⟩
      · rcases List.mem_cons.mp hmem with h | h
        · exact absurd h.symm hai
        · rcases ih vt (Nat.le_of_succ_le_succ hlen) h with ⟨v, hv⟩
          refine ⟨v, ?_⟩
          simpa [assoc, hai, List.zip] using hv

theorem pandasRead_ok (df : DFrame) (c : String) (vals : List Value) (i : Nat)
    (hcol : df.getCol c = some vals) (hlen : df.index.length ≤ vals.length)
    (hmem : i ∈ df.index) :
    ∃ v, pandasRead df i c = Except.ok v := by
  rcases assoc_zip_isSome df.index vals i hlen hmem with ⟨v, hv⟩
  exact ⟨v, by simp [pandasRead, hcol, hv]⟩

/-! ### Case characterization of the per-column step, and invariants -/

theorem processColumn_cases (ops : EngineOps) (repl : Value) (vd : Validator)
    (st : DFrame × Report) (c : String) :
    processColumn ops repl vd st c = st ∨
    ∃ vals maskS mask,
      st.1.getCol c = some vals ∧
      vd.fn (st.1.index.zip vals) = Except.ok maskS ∧
      alignMask st.1.index maskS = some mask ∧
      invalidLabels st.1.index mask ≠ [] ∧
      ((∃ df2, ops.writeCells st.1 c (invalidLabels st.1.index mask) repl = Except.ok df2 ∧
        processColumn ops repl vd st c =
          (df2, reportAppend st.2 c
            (recsFor ops st.1 c repl vd.name (invalidLabels st.1.index mask)))) ∨
       (ops.writeCells st.1 c (invalidLabels st.1.index mask) repl = Except.error () ∧
        processColumn ops repl vd st c =
          (st.1, reportAppend st.2 c
            (recsFor ops st.1 c repl vd.name (invalidLabels st.1.index mask))))) := by
  cases hcol : st.1.getCol c with
  | none => exact Or.inl (processColumn_absent hcol)
  | some vals =>
    cases hfn : vd.fn (st.1.index.zip vals) with
    | error e => exact Or.inl (processColumn_fnError hcol hfn)
    | ok maskS =>
      cases hal : alignMask st.1.index maskS with
      | none => exact Or.inl (processColumn_alignNone hcol hfn hal)
      | some mask =>
        by_cases hemp : invalidLabels st.1.index mask = []
        · exact Or.inl (processColumn_emptyLabels hcol hfn hal hemp)
        · cases hw : ops.writeCells st.1 c (invalidLabels st.1.index mask) repl with
          | ok df2 =>
            exact Or.inr ⟨vals, maskS, mask, rfl, hfn, hal, hemp,
              Or.inl ⟨df2, hw, processColumn_writeOk hcol hfn hal hemp hw⟩⟩
          | error e =>
            exact Or.inr ⟨vals, maskS, mask, rfl, hfn, hal, hemp,
              Or.inr ⟨hw, processColumn_writeError hcol hfn hal hemp hw⟩⟩

theorem pandasOps_write_ok (df : DFrame) (c : String) (labels : List Nat) (r : Value) :
    pandasOps.writeCells df c labels r = Except.ok (setCells df c labels r) := rfl

theorem processColumn_pandas_getCol_ne (repl : Value) (vd : Validator)
    (st : DFrame × Report) (c c' : String) (h : c' ≠ c) :
    (processColumn pandasOps repl vd st c).1.getCol c' = st.1.getCol c' := by
  rcases processColumn_cases pandasOps repl vd st c with h0 | ⟨vals, maskS, mask, _, _, _, _, hc⟩
  · rw [h0]
  · rcases hc with ⟨df2, hw, heq⟩ | ⟨hw, _⟩
    · rw [heq]
      rw [pandasOps_write_ok] at hw
      injection hw with hw
      rw [← hw, getCol_setCells_ne _ _ _ _ _ h]
    · rw [pandasOps_write_ok] at hw
      exact absurd hw (by simp)

theorem processColumn_pandas_index (repl : Value) (vd : Validator)
    (st : DFrame × Report) (c : String) :
    (processColumn pandasOps repl vd st c).1.index = st.1.index := by
  rcases processColumn_cases pandasOps repl vd st c with h0 | ⟨vals, maskS, mask, _, _, _, _, hc⟩
  · rw [h0]
  · rcases hc with ⟨df2, hw, heq⟩ | ⟨hw, _⟩
    · rw [heq]
      rw [pandasOps_write_ok] at hw
      injection hw with hw
      rw [← hw, setCells_index]
    · rw [pandasOps_write_ok] at hw
      exact absurd hw (by simp)

theorem mem_updateCol (cols : List (String × List Value)) (c : String)
    (f : List Value → List Value) (p : String × List Value) (hp : p ∈ updateCol cols c f) :
    p ∈ cols ∨ ∃ vs, (p.1, vs) ∈ cols ∧ p.2 = f vs := by
  induction cols with
  | nil => simp [updateCol] at hp
  | cons q t ih =>
    obtain ⟨n, vs⟩ := q
    by_cases hn : n = c
    · subst hn
      simp only [updateCol, if_pos rfl] at hp
      rcases List.mem_cons.mp hp with h | h
      · exact Or.inr ⟨vs, by simp [h], by simp [h]⟩
      · exact Or.inl (List.mem_cons_of_mem _ h)
    · simp only [updateCol, if_neg hn] at hp
      rcases List.mem_cons.mp hp with h | h
      · exact Or.inl (by simp [h])
      · rcases ih h with h2 | ⟨vs2, h2, h3⟩
        · exact Or.inl (List.mem_cons_of_mem _ h2)
        · exact Or.inr ⟨vs2, List.mem_cons_of_mem _ h2, h3⟩

theorem WF_setCells (df : DFrame) (c : String) (labels : List Nat) (r : Value)
    (h : df.WF) : (setCells df c labels r).WF := by
  intro p hp
  rcases mem_updateCol df.cols c _ p hp with h2 | ⟨vs, h2, h3⟩
  · exact h p h2
  · have hlen := h (p.1, vs) h2
    simp only at hlen
    simp only [setCells]
    simp only [h3, List.length_zipWith]
    omega

theorem processColumn_pandas_WF (repl : Value) (vd : Validator)
    (st : DFrame × Report) (c : String) (h : st.1.WF) :
    (processColumn pandasOps repl vd st c).1.WF := by
  rcases processColumn_cases pandasOps repl vd st c with h0 | ⟨vals, maskS, mask, _, _, _, _, hc⟩
  · rw [h0]; exact h
  · rcases hc with ⟨df2, hw, heq⟩ | ⟨hw, _⟩
    · rw [heq]
      rw [pandasOps_write_ok] at hw
      injection hw with hw
      rw [← hw]
      exact WF_setCells _ _ _ _ h
    · rw [pandasOps_write_ok] at hw
      exact absurd hw (by simp)

theorem runRules_nil (ops : EngineOps) (repl : Value) (st : DFrame × Report) :
    runRules ops repl [] st = st := rfl

theorem runRules_cons (ops : EngineOps) (repl : Value) (r : Validator × List String)
    (rest : List (Validator × List String)) (st : DFrame × Report) :
    runRules ops repl (r :: rest) st =
      runRules ops repl rest (r.2.foldl (processColumn ops repl r.1) st) := rfl

theorem foldl_cols_getCol_not_mem (repl : Value) (vd : Validator) (c : String) :
    ∀ (cols : List String) (st : DFrame × Report), c ∉ cols →
      (cols.foldl (processColumn pandasOps repl vd) st).1.getCol c = st.1.getCol c := by
  intro cols
  induction cols with
  | nil => intro st _; rfl
  | cons c2 rest ih =>
    intro st hmem
    have hne : c ≠ c2 := fun h => hmem (h ▸ List.mem_cons_self c2 rest)
    rw [List.foldl_cons, ih _ (fun h => hmem (List.mem_cons_of_mem _ h)),
      processColumn_pandas_getCol_ne _ _ _ _ _ hne]

theorem runRules_getCol_not_target (repl : Value) (c : String) :
    ∀ (rules : List (Validator × List String)) (st : DFrame × Report),
      (∀ r ∈ rules, c ∉ r.2) →
      (runRules pandasOps repl rules st).1.getCol c = st.1.getCol c := by
  intro rules
  induction rules with
  | nil => intro st _; rfl
  | cons r rest ih =>
    intro st h
    rw [runRules_cons, ih _ (fun q hq => h q (List.mem_cons_of_mem _ hq)),
      foldl_cols_getCol_not_mem _ _ _ _ _ (h r (List.mem_cons_self _ _))]

theorem foldl_cols_preserve (ops : EngineOps) (repl : Value) (vd : Validator)
    (P : DFrame × Report → Prop)
    (hstep : ∀ st c, P st → P (processColumn ops repl vd st c)) :
    ∀ (cols : List String) (st : DFrame × Report), P st →
      P (cols.foldl (processColumn ops repl vd) st) := by
  intro cols
  induction cols with
  | nil => intro st h; exact h
  | cons c2 rest ih =>
    intro st h
    rw [List.foldl_cons]
    exact ih _ (hstep _ _ h)

theorem runRules_preserve (ops : EngineOps) (repl : Value)
    (P : DFrame × Report → Prop)
    (hstep : ∀ st vd c, P st → P (processColumn ops repl vd st c)) :
    ∀ (rules : List (Validator × List String)) (st : DFrame × Report), P st →
      P (runRules ops repl rules st) := by
  intro rules
  induction rules with
  | nil => intro st h; exact h
  | cons r rest ih =>
    intro st h
    rw [runRules_cons]
    exact ih _ (foldl_cols_preserve ops repl r.1 P (fun st2 c => hstep st2 r.1 c) r.2 st h)

theorem processColumn_report_extend (ops : EngineOps) (repl : Value) (vd : Validator)
    (st : DFrame × Report) (c2 c : String) :
    ∃ ext, reportRecs (processColumn ops repl vd st c2).2 c = reportRecs st.2 c ++ ext := by
  rcases processColumn_cases ops repl vd st c2 with h0 | ⟨vals, maskS, mask, _, _, _, _, hc⟩
  · rw [h0]; exact ⟨[], by simp⟩
  · have key : ∀ df2 : DFrame,
        ∃ ext, reportRecs (df2, reportAppend st.2 c2
          (recsFor ops st.1 c2 repl vd.name (invalidLabels st.1.index mask))).2 c =
          reportRecs st.2 c ++ ext := by
      intro df2
      by_cases hcc : c = c2
      · subst hcc
        exact ⟨_, reportRecs_append_self st.2 c _⟩
      · exact ⟨[], by rw [reportRecs_append_ne _ _ _ _ hcc, List.append_nil]⟩
    rcases hc with ⟨df2, _, heq⟩ | ⟨_, heq⟩ <;> rw [heq] <;> exact key _

/-! ### Claims C2, C3, C10 -/

/-- C2 (amended): for a single rule over a single column, an exception
while computing or re-aligning the mask skips the column with no
report entries and no mutation; per-record read failures drop only
that record while the batched write still runs; the batched write is
all-or-nothing, but when it fails the records appended beforehand
remain in the report even though no cell was replaced. -/
theorem claim_C2_amended (ops : EngineOps) (df : DFrame) (vd : Validator) (c : String)
    (repl : Value) :
    apply_validations_inplace ops df [(vd, [c])] repl = (df, []) ∨
    ∃ vals maskS mask,
      df.getCol c = some vals ∧
      vd.fn (df.index.zip vals) = Except.ok maskS ∧
      alignMask df.index maskS = some mask ∧
      invalidLabels df.index mask ≠ [] ∧
      ((∃ df2, ops.writeCells df c (invalidLabels df.index mask) repl = Except.ok df2 ∧
        apply_validations_inplace ops df [(vd, [c])] repl =
          (df2, [(c, recsFor ops df c repl vd.name (invalidLabels df.index mask))])) ∨
       (ops.writeCells df c (invalidLabels df.index mask) repl = Except.error () ∧
        apply_validations_inplace ops df [(vd, [c])] repl =
          (df, [(c, recsFor ops df c repl vd.name (invalidLabels df.index mask))]))) := by
  rcases processColumn_cases ops repl vd (df, []) c with h0 | ⟨vals, maskS, mask, hcol, hfn, hal, hne, hc⟩
  · exact Or.inl h0
  · right
    refine ⟨vals, maskS, mask, hcol, hfn, hal, hne, ?_⟩
    rcases hc with ⟨df2, hw, heq⟩ | ⟨hw, heq⟩
    · exact Or.inl ⟨df2, hw, heq⟩
    · exact Or.inr ⟨hw, heq⟩

/-- C2 (counterexample): when the batched write raises, the already
appended records for the skipped column remain in the returned
Modification Report, while the table is left unmutated. -/
theorem claim_C2_counterexample :
    (apply_validations_inplace failingWriteOps dfC2 [(ipv4Validator, ["ip"])]
      default_replacement).1 = dfC2 ∧
    reportRecs (apply_validations_inplace failingWriteOps dfC2 [(ipv4Validator, ["ip"])]
      default_replacement).2 "ip" =
      [⟨0, Value.vStr "bad", Value.vStr " ", "is_invalid_ipv4"⟩] := by
  decide

/-- C3: a column that appears in no rule's target list holds exactly
the same values after `apply_validations_inplace` as before. -/
theorem claim_C3 (df : DFrame) (rules : List (Validator × List String)) (repl : Value)
    (c : String) (h : ∀ r ∈ rules, c ∉ r.2) :
    (apply_validations_inplace pandasOps df rules repl).1.getCol c = df.getCol c :=
  runRules_getCol_not_target repl c rules (df, []) h

/-- C10: the facade's `validate` returns exactly the table it holds,
mutated in place by the engine (the first component of the engine's
output), stores the same table back, and drops the Modification Report
(the engine's second component appears in no facade output; the facade
state holds nothing but the table). -/
theorem claim_C10 (cv : CsvValidator) (rules : List (Validator × List String)) (repl : Value) :
    (cv.validate rules repl).2 =
      (apply_validations_inplace pandasOps cv._dataframe rules repl).1 ∧
    (cv.validate rules repl).1 =
      ⟨(apply_validations_inplace pandasOps cv._dataframe rules repl).1⟩ ∧
    ((cv.validate rules repl).1).get_dataframe = (cv.validate rules repl).2 :=
  ⟨rfl, rfl, rfl⟩

/-! ### Claim C1: single-rule mask/report/replacement correspondence -/

theorem alignMask_exact (idx : List Nat) (maskS : List (Nat × Bool))
    (h : maskS.map Prod.fst = idx) :
    alignMask idx maskS = some (maskS.map Prod.snd) := by
  simp [alignMask, h]

theorem mem_invalidLabels_nodup (idx : List Nat) (mask : List Bool) (k : Nat) (i : Nat)
    (hnd : idx.Nodup) (h1 : idx[k]? = some i) (h2 : k < mask.length) :
    i ∈ invalidLabels idx mask ↔ mask[k] = true := by
  have hk : k < idx.length := by
    by_contra hlt
    rw [List.getElem?_eq_none (Nat.le_of_not_lt hlt)] at h1
    exact Option.noConfusion h1
  rw [mem_invalidLabels_iff]
  constructor
  · rintro ⟨j, hj1, hj2⟩
    have hkj : k = j := List.getElem?_inj hk hnd (by rw [h1, hj1])
    subst hkj
    rw [List.getElem?_eq_getElem h2] at hj2
    injection hj2
  · intro hb
    exact ⟨k, h1, by rw [List.getElem?_eq_getElem h2, hb]⟩

theorem recsFor_pandas_index_iff (df : DFrame) (c : String) (repl : Value) (nm : String)
    (labels : List Nat) (vals : List Value) (i : Nat)
    (hcol : df.getCol c = some vals) (hlen : df.index.length ≤ vals.length)
    (hsub : ∀ j ∈ labels, j ∈ df.index) :
    (∃ rec ∈ recsFor pandasOps df c repl nm labels, rec.index = i) ↔ i ∈ labels := by
  constructor
  · rintro ⟨rec, hmem, hidx⟩
    rcases List.mem_filterMap.mp hmem with ⟨j, hj, hf⟩
    have hrj : rec.index = j := by
      cases hr : pandasOps.readCell df j c <;> rw [hr] at hf
      · simp only [] at hf
        exact Option.noConfusion hf
      · injection hf with hf
        rw [← hf]
    rw [← hidx, hrj]
    exact hj
  · intro hi
    rcases pandasRead_ok df c vals i hcol hlen (hsub i hi) with ⟨v, hv⟩
    refine ⟨⟨i, v, repl, nm⟩, List.mem_filterMap.mpr ⟨i, hi, ?_⟩, rfl⟩
    show (match pandasOps.readCell df i c with
      | Except.ok ov => some (⟨i, ov, repl, nm⟩ : ModificationRecord)
      | Except.error _ => none) = _
    rw [show pandasOps.readCell df i c = pandasRead df i c from rfl, hv]

/-- C1: for a single rule (validator, target column) over a table with
unique row labels, where the validator returns a label-aligned mask:
after the pass, a record for row `k` appears in the report under the
column's key precisely when the mask entry of row `k` is `true`;
every mask-`true` cell of the column equals the replacement value and
every mask-`false` cell is unchanged. -/
theorem claim_C1 (df : DFrame) (vd : Validator) (c : String) (repl : Value)
    (vals : List Value) (maskS : List (Nat × Bool))
    (hnd : df.index.Nodup)
    (hcol : df.getCol c = some vals)
    (hlen : vals.length = df.index.length)
    (hfn : vd.fn (df.index.zip vals) = Except.ok maskS)
    (halign : maskS.map Prod.fst = df.index) :
    ∃ vals2,
      (apply_validations_inplace pandasOps df [(vd, [c])] repl).1.getCol c = some vals2 ∧
      ∀ k, k < df.index.length →
        (vals2[k]? = if (maskS.map Prod.snd)[k]? = some true then some repl else vals[k]?) ∧
        ((∃ rec ∈ reportRecs (apply_validations_inplace pandasOps df [(vd, [c])] repl).2 c,
            some rec.index = df.index[k]?) ↔ (maskS.map Prod.snd)[k]? = some true) := by
  have happly : apply_validations_inplace pandasOps df [(vd, [c])] repl =
      processColumn pandasOps repl vd (df, []) c := rfl
  set mask := maskS.map Prod.snd with hmask
  have hal : alignMask df.index maskS = some mask := alignMask_exact _ _ halign
  have hmlen : mask.length = df.index.length := by
    rw [hmask, List.length_map, ← halign, List.length_map]
  by_cases hemp : invalidLabels df.index mask = []
  · have hres := @processColumn_emptyLabels pandasOps repl vd (df, []) c vals maskS mask hcol hfn hal hemp
    rw [happly, hres]
    refine ⟨vals, hcol, fun k hk => ?_⟩
    have hkm : k < mask.length := hmlen ▸ hk
    have hmf : mask[k] = false := by
      cases hmk : mask[k] with
      | false => rfl
      | true =>
        have hmm := (mem_invalidLabels_nodup df.index mask k (df.index[k]) hnd
          (List.getElem?_eq_getElem hk) hkm).mpr hmk
        rw [hemp] at hmm
        exact absurd hmm (List.not_mem_nil _)
    constructor
    · rw [List.getElem?_eq_getElem hkm, hmf]
      simp
    · constructor
      · rintro ⟨rec, hmem, _⟩
        exact absurd hmem (by simp [reportRecs, assoc])
      · intro hb
        rw [List.getElem?_eq_getElem hkm, hmf] at hb
        simp at hb
  · have hw := pandasOps_write_ok df c (invalidLabels df.index mask) repl
    have hres := @processColumn_writeOk pandasOps repl vd (df, []) c vals maskS mask _ hcol hfn hal hemp hw
    rw [happly, hres]
    have hsub : ∀ j ∈ invalidLabels df.index mask, j ∈ df.index :=
      fun j hj => invalidLabels_sub _ _ _ hj
    have hlen2 : df.index.length ≤ vals.length := Nat.le_of_eq hlen.symm
    have hcol2 : (setCells df c (invalidLabels df.index mask) repl).getCol c =
        some (List.zipWith
          (fun i v => if (invalidLabels df.index mask).contains i then repl else v)
          df.index vals) := by
      rw [getCol_setCells_self, hcol]
      rfl
    refine ⟨_, hcol2, fun k hk => ?_⟩
    have hkm : k < mask.length := hmlen ▸ hk
    have hkv : k < vals.length := hlen ▸ hk
    have hconn : df.index[k] ∈ invalidLabels df.index mask ↔ mask[k] = true :=
      mem_invalidLabels_nodup df.index mask k (df.index[k]) hnd
        (List.getElem?_eq_getElem hk) hkm
    constructor
    · rw [List.getElem?_zipWith, List.getElem?_eq_getElem hk, List.getElem?_eq_getElem hkv,
        List.getElem?_eq_getElem hkm]
      cases hb : mask[k] with
      | true =>
        have hmem2 : df.index[k] ∈ invalidLabels df.index mask := hconn.mpr hb
        simp [hmem2, hb]
      | false =>
        have hnm : df.index[k] ∉ invalidLabels df.index mask := by
          intro hx
          rw [hconn.mp hx] at hb
          exact Bool.noConfusion hb
        simp [hnm, hb]
    · rw [reportRecs_append_self, show reportRecs ([] : Report) c = [] from rfl,
        List.nil_append, List.getElem?_eq_getElem hk, List.getElem?_eq_getElem hkm]
      constructor
      · rintro ⟨rec, hmem, hi⟩
        injection hi with hi
        have hmm := (recsFor_pandas_index_iff df c repl vd.name _ vals (df.index[k])
          hcol hlen2 hsub).mp ⟨rec, hmem, hi⟩
        rw [hconn.mp hmm]
      · intro hb
        injection hb with hb
        rcases (recsFor_pandas_index_iff df c repl vd.name _ vals (df.index[k])
          hcol hlen2 hsub).mpr (hconn.mpr hb) with ⟨rec, hmem, hi⟩
        exact ⟨rec, hmem, by rw [hi]⟩

/-! ### Claim C4: idempotence for per-cell rule sets -/

theorem assoc_mem {α β : Type} [DecidableEq α] (l : List (α × β)) (k : α) (b : β)
    (h : assoc l k = some b) : (k, b) ∈ l := by
  induction l with
  | nil => simp [assoc] at h
  | cons p t ih =>
    obtain ⟨a, b0⟩ := p
    by_cases ha : a = k
    · subst ha
      simp [assoc] at h
      simp [h]
    · simp [assoc, ha] at h
      exact List.mem_cons_of_mem _ (ih h)

theorem cellRule_maskS_fst (idx : List Nat) (vals : List Value) (p : Value → Bool)
    (h : idx.length ≤ vals.length) :
    ((idx.zip vals).map (fun iv => (iv.1, p iv.2))).map Prod.fst = idx := by
  rw [List.map_map]
  have : (Prod.fst ∘ fun iv : Nat × Value => (iv.1, p iv.2)) = Prod.fst := rfl
  rw [this, List.map_fst_zip _ _ h]

theorem cellRule_maskS_snd (idx : List Nat) (vals : List Value) (p : Value → Bool)
    (h : vals.length ≤ idx.length) :
    ((idx.zip vals).map (fun iv => (iv.1, p iv.2))).map Prod.snd = vals.map p := by
  rw [List.map_map]
  have h1 : (Prod.snd ∘ fun iv : Nat × Value => (iv.1, p iv.2)) = p ∘ Prod.snd := rfl
  rw [h1, ← List.map_map, List.map_snd_zip _ _ h]

theorem mem_zipWith_pos {α β γ : Type} (f : α → β → γ) (l1 : List α) (l2 : List β) (v : γ)
    (hv : v ∈ List.zipWith f l1 l2) :
    ∃ k, ∃ (h1 : k < l1.length) (h2 : k < l2.length), v = f l1[k] l2[k] := by
  induction l1 generalizing l2 with
  | nil => simp at hv
  | cons a t ih =>
    cases l2 with
    | nil => simp at hv
    | cons b u =>
      rcases List.mem_cons.mp hv with h | h
      · exact ⟨0, Nat.succ_pos _, Nat.succ_pos _, h⟩
      · rcases ih u h with ⟨k, h1, h2, hk⟩
        exact ⟨k + 1, Nat.succ_lt_succ h1, Nat.succ_lt_succ h2, hk⟩

theorem processColumn_pandas_stable (repl : Value) (p : Value → Bool) (c : String)
    (vd : Validator) (st : DFrame × Report) (c2 : String)
    (h : ColStable repl p c st.1) :
    ColStable repl p c (processColumn pandasOps repl vd st c2).1 := by
  rcases processColumn_cases pandasOps repl vd st c2 with
    h0 | ⟨vals, maskS, mask, hcol, hfn, hal, hne, hc⟩
  · rw [h0]; exact h
  · rcases hc with ⟨df2, hw, heq⟩ | ⟨hw, heq⟩
    · rw [heq]
      rw [pandasOps_write_ok] at hw
      injection hw with hw
      rw [← hw]
      by_cases hcc : c = c2
      · subst hcc
        intro vals2 hcol2 v hv
        rw [getCol_setCells_self, hcol] at hcol2
        simp only [Option.map_some'] at hcol2
        injection hcol2 with hcol2
        rw [← hcol2] at hv
        rcases mem_zipWith_pos _ _ _ _ hv with ⟨k, h1, h2, hk⟩
        cases hcont : (invalidLabels st.1.index mask).contains st.1.index[k] with
        | true =>
          rw [hk, hcont]
          simp
        | false =>
          rw [hk, hcont]
          simpa using h vals hcol vals[k] (List.getElem_mem h2)
      · intro vals2 hcol2 v hv
        rw [getCol_setCells_ne _ _ _ _ _ hcc] at hcol2
        exact h vals2 hcol2 v hv
    · rw [pandasOps_write_ok] at hw
      exact absurd hw (by simp)

theorem cellRule_align (idx : List Nat) (vals : List Value) (p : Value → Bool)
    (hlen : vals.length = idx.length) :
    alignMask idx ((idx.zip vals).map (fun iv => (iv.1, p iv.2))) = some (vals.map p) := by
  rw [alignMask_exact _ _ (cellRule_maskS_fst idx vals p (Nat.le_of_eq hlen.symm)),
    cellRule_maskS_snd idx vals p (Nat.le_of_eq hlen)]

theorem mask_false_of_all_false (vals : List Value) (p : Value → Bool)
    (h : ∀ v ∈ vals, p v = false) (idx : List Nat) :
    invalidLabels idx (vals.map p) = [] := by
  apply invalidLabels_eq_nil
  intro b hb
  rcases List.mem_map.mp hb with ⟨v, hv, hpv⟩
  rw [← hpv]
  exact h v hv

theorem processColumn_cellRule_noop (repl : Value) (nm : String) (p : Value → Bool)
    (st : DFrame × Report) (c : String) (hwf : st.1.WF)
    (h : ∀ vals, st.1.getCol c = some vals → ∀ v ∈ vals, p v = false) :
    processColumn pandasOps repl (cellRule nm p) st c = st := by
  cases hcol : st.1.getCol c with
  | none => exact processColumn_absent hcol
  | some vals =>
    have hlen : vals.length = st.1.index.length :=
      hwf (c, vals) (assoc_mem st.1.cols c vals hcol)
    have hfn : (cellRule nm p).fn (st.1.index.zip vals) =
        Except.ok ((st.1.index.zip vals).map (fun iv => (iv.1, p iv.2))) := rfl
    exact processColumn_emptyLabels hcol hfn (cellRule_align _ _ _ hlen)
      (mask_false_of_all_false vals p (h vals hcol) st.1.index)

theorem processColumn_cellRule_establish (repl : Value) (nm : String) (p : Value → Bool)
    (st : DFrame × Report) (c : String) (hwf : st.1.WF) :
    ColStable repl p c (processColumn pandasOps repl (cellRule nm p) st c).1 := by
  cases hcol : st.1.getCol c with
  | none =>
    rw [processColumn_absent hcol]
    intro vals2 hcol2
    rw [hcol] at hcol2
    exact absurd hcol2 (by simp)
  | some vals =>
    have hlen : vals.length = st.1.index.length :=
      hwf (c, vals) (assoc_mem st.1.cols c vals hcol)
    have hfn : (cellRule nm p).fn (st.1.index.zip vals) =
        Except.ok ((st.1.index.zip vals).map (fun iv => (iv.1, p iv.2))) := rfl
    have hal := cellRule_align st.1.index vals p hlen
    by_cases hemp : invalidLabels st.1.index (vals.map p) = []
    · rw [processColumn_emptyLabels hcol hfn hal hemp]
      intro vals2 hcol2 v hv
      rw [hcol] at hcol2
      injection hcol2 with hcol2
      subst hcol2
      right
      rcases List.mem_iff_getElem.mp hv with ⟨k, hk, hkv⟩
      cases hp : p v with
      | false => rfl
      | true =>
        have hkm : k < (vals.map p).length := by
          rw [List.length_map]; exact hk
        have hki : k < st.1.index.length := hlen ▸ hk
        have hmk : (vals.map p)[k] = true := by
          rw [List.getElem_map, hkv, hp]
        have hmm : st.1.index[k] ∈ invalidLabels st.1.index (vals.map p) :=
          (mem_invalidLabels_iff _ _ _).mpr
            ⟨k, List.getElem?_eq_getElem hki, by rw [List.getElem?_eq_getElem hkm, hmk]⟩
        rw [hemp] at hmm
        exact absurd hmm (List.not_mem_nil _)
    · have hw := pandasOps_write_ok st.1 c (invalidLabels st.1.index (vals.map p)) repl
      rw [@processColumn_writeOk pandasOps repl (cellRule nm p) st c vals _ _ _
        hcol hfn hal hemp hw]
      intro vals2 hcol2 v hv
      rw [getCol_setCells_self, hcol] at hcol2
      simp only [Option.map_some'] at hcol2
      injection hcol2 with hcol2
      rw [← hcol2] at hv
      rcases mem_zipWith_pos _ _ _ _ hv with ⟨k, h1, h2, hk⟩
      cases hcont : (invalidLabels st.1.index (vals.map p)).contains st.1.index[k] with
      | true =>
        rw [hk, hcont]
        simp
      | false =>
        rw [hk, hcont]
        simp only [Bool.false_eq_true, if_false]
        right
        cases hp : p vals[k] with
        | false => rfl
        | true =>
          have hkm : k < (vals.map p).length := by
            rw [List.length_map]; exact h2
          have hmk : (vals.map p)[k] = true := by
            rw [List.getElem_map, hp]
          have hmem2 : st.1.index[k] ∈ invalidLabels st.1.index (vals.map p) :=
            (mem_invalidLabels_iff _ _ _).mpr
              ⟨k, List.getElem?_eq_getElem h1, by rw [List.getElem?_eq_getElem hkm, hmk]⟩
          rw [List.contains, (List.elem_eq_true_of_mem hmem2 : _)] at hcont
          exact Bool.noConfusion hcont

theorem foldl_cols_pandas_WF (repl : Value) (vd : Validator) (cols : List String)
    (st : DFrame × Report) (h : st.1.WF) :
    (cols.foldl (processColumn pandasOps repl vd) st).1.WF :=
  foldl_cols_preserve pandasOps repl vd (fun s => s.1.WF)
    (fun st2 c => processColumn_pandas_WF repl vd st2 c) cols st h

theorem runRules_pandas_WF (repl : Value) (rules : List (Validator × List String))
    (st : DFrame × Report) (h : st.1.WF) :
    (runRules pandasOps repl rules st).1.WF :=
  runRules_preserve pandasOps repl (fun s => s.1.WF)
    (fun st2 vd c => processColumn_pandas_WF repl vd st2 c) rules st h

theorem foldl_cols_stable (repl : Value) (p : Value → Bool) (c : String) (vd : Validator)
    (cols : List String) (st : DFrame × Report) (h : ColStable repl p c st.1) :
    ColStable repl p c ((cols.foldl (processColumn pandasOps repl vd) st)).1 :=
  foldl_cols_preserve pandasOps repl vd (fun s => ColStable repl p c s.1)
    (fun st2 c2 => processColumn_pandas_stable repl p c vd st2 c2) cols st h

theorem runRules_stable (repl : Value) (p : Value → Bool) (c : String)
    (rules : List (Validator × List String)) (st : DFrame × Report)
    (h : ColStable repl p c st.1) :
    ColStable repl p c (runRules pandasOps repl rules st).1 :=
  runRules_preserve pandasOps repl (fun s => ColStable repl p c s.1)
    (fun st2 vd c2 => processColumn_pandas_stable repl p c vd st2 c2) rules st h

theorem foldl_cols_establish (repl : Value) (nm : String) (p : Value → Bool) :
    ∀ (cols : List String) (st : DFrame × Report), st.1.WF →
      ∀ c ∈ cols,
        ColStable repl p c ((cols.foldl (processColumn pandasOps repl (cellRule nm p)) st)).1 := by
  intro cols
  induction cols with
  | nil => intro st _ c hc; exact absurd hc (List.not_mem_nil _)
  | cons c2 rest ih =>
    intro st hwf c hc
    rw [List.foldl_cons]
    rcases List.mem_cons.mp hc with hceq | hcr
    · subst hceq
      exact foldl_cols_stable repl p c _ rest _
        (processColumn_cellRule_establish repl nm p st c hwf)
    · exact ih _ (processColumn_pandas_WF repl _ st c2 hwf) c hcr

theorem runRules_establish (repl : Value) :
    ∀ (prs : List (CellRule × List String)) (st : DFrame × Report), st.1.WF →
      ∀ r ∈ prs, ∀ c ∈ r.2,
        ColStable repl r.1.pred c (runRules pandasOps repl (toRules prs) st).1 := by
  intro prs
  induction prs with
  | nil => intro st _ r hr; exact absurd hr (List.not_mem_nil _)
  | cons r0 rest ih =>
    intro st hwf r hr c hc
    rw [show toRules (r0 :: rest) = (cellRule r0.1.name r0.1.pred, r0.2) :: toRules rest from rfl,
      runRules_cons]
    rcases List.mem_cons.mp hr with hreq | hrr
    · subst hreq
      exact runRules_stable repl r.1.pred c _ _
        (foldl_cols_establish repl r.1.name r.1.pred r.2 st hwf c hc)
    · exact ih _ (foldl_cols_pandas_WF repl _ r0.2 st hwf) r hrr c hc

theorem foldl_cols_noop (repl : Value) (nm : String) (p : Value → Bool) :
    ∀ (cols : List String) (st : DFrame × Report), st.1.WF →
      (∀ c ∈ cols, ∀ vals, st.1.getCol c = some vals → ∀ v ∈ vals, p v = false) →
      cols.foldl (processColumn pandasOps repl (cellRule nm p)) st = st := by
  intro cols
  induction cols with
  | nil => intro st _ _; rfl
  | cons c2 rest ih =>
    intro st hwf h
    rw [List.foldl_cons,
      processColumn_cellRule_noop repl nm p st c2 hwf (h c2 (List.mem_cons_self _ _)),
      ih st hwf (fun c hc => h c (List.mem_cons_of_mem _ hc))]

theorem runRules_cellRules_noop (repl : Value) :
    ∀ (prs : List (CellRule × List String)) (st : DFrame × Report), st.1.WF →
      (∀ r ∈ prs, ∀ c ∈ r.2, ∀ vals, st.1.getCol c = some vals →
        ∀ v ∈ vals, r.1.pred v = false) →
      runRules pandasOps repl (toRules prs) st = st := by
  intro prs
  induction prs with
  | nil => intro st _ _; rfl
  | cons r0 rest ih =>
    intro st hwf h
    rw [show toRules (r0 :: rest) = (cellRule r0.1.name r0.1.pred, r0.2) :: toRules rest from rfl,
      runRules_cons,
      foldl_cols_noop repl r0.1.name r0.1.pred r0.2 st hwf (h r0 (List.mem_cons_self _ _)),
      ih st hwf (fun r hr => h r (List.mem_cons_of_mem _ hr))]

/-- C4: if no rule's predicate marks the replacement value itself as
invalid, then running the same per-cell rule set a second time over
the already-validated table produces an empty Modification Report. -/
theorem claim_C4 (df : DFrame) (prs : List (CellRule × List String)) (repl : Value)
    (hwf : df.WF) (hrepl : ∀ r ∈ prs, r.1.pred repl = false) :
    (apply_validations_inplace pandasOps
      (apply_validations_inplace pandasOps df (toRules prs) repl).1
      (toRules prs) repl).2 = [] := by
  have hwf1 : (apply_validations_inplace pandasOps df (toRules prs) repl).1.WF :=
    runRules_pandas_WF repl (toRules prs) (df, []) hwf
  have hstab := runRules_establish repl prs (df, []) hwf
  have hnoop : runRules pandasOps repl (toRules prs)
      ((apply_validations_inplace pandasOps df (toRules prs) repl).1, []) =
      ((apply_validations_inplace pandasOps df (toRules prs) repl).1, []) := by
    refine runRules_cellRules_noop repl prs
      ((apply_validations_inplace pandasOps df (toRules prs) repl).1, []) hwf1 ?_
    intro r hr c hc vals hcol v hv
    rcases hstab r hr c hc vals hcol v hv with h | h
    · rw [h]; exact hrepl r hr
    · exact h
  show (runRules pandasOps repl (toRules prs)
    ((apply_validations_inplace pandasOps df (toRules prs) repl).1, [])).2 = []
  rw [hnoop]

/-! ### Character arithmetic, date-pattern equivalence (claim C5) -/

theorem char_le_iff (a b : Char) : a ≤ b ↔ a.toNat ≤ b.toNat := by
  rw [Char.le_def, UInt32.le_def, BitVec.le_def]
  rfl

theorem char_eq_iff (a b : Char) : a = b ↔ a.toNat = b.toNat :=
  ⟨fun h => h ▸ rfl, fun h => Char.ext (UInt32.ext h)⟩

theorem char_beq_iff (a b : Char) : (a == b) = true ↔ a.toNat = b.toNat := by
  rw [beq_iff_eq]
  exact char_eq_iff a b

theorem char_isDigit_iff (c : Char) : c.isDigit = true ↔ 48 ≤ c.toNat ∧ c.toNat ≤ 57 := by
  unfold Char.isDigit
  rw [Bool.and_eq_true, decide_eq_true_iff, decide_eq_true_iff, ge_iff_le,
    UInt32.le_def, UInt32.le_def, BitVec.le_def, BitVec.le_def]
  exact Iff.rfl

theorem monthOk_iff (a b : Char) :
    monthOk a b =
      (a.isDigit && b.isDigit &&
        decide (1 ≤ twoDigitVal a b) && decide (twoDigitVal a b ≤ 12)) := by
  rw [Bool.eq_iff_iff]
  simp only [monthOk, twoDigitVal, Bool.and_eq_true, Bool.or_eq_true, decide_eq_true_iff,
    char_beq_iff, char_le_iff, char_isDigit_iff,
    show ('0' : Char).toNat = 48 from rfl, show ('1' : Char).toNat = 49 from rfl,
    show ('2' : Char).toNat = 50 from rfl, show ('9' : Char).toNat = 57 from rfl]
  omega

theorem dayOk_iff (a b : Char) :
    dayOk a b =
      (a.isDigit && b.isDigit &&
        decide (1 ≤ twoDigitVal a b) && decide (twoDigitVal a b ≤ 31)) := by
  rw [Bool.eq_iff_iff]
  simp only [dayOk, twoDigitVal, Bool.and_eq_true, Bool.or_eq_true, decide_eq_true_iff,
    char_beq_iff, char_le_iff, char_isDigit_iff,
    show ('0' : Char).toNat = 48 from rfl, show ('1' : Char).toNat = 49 from rfl,
    show ('2' : Char).toNat = 50 from rfl, show ('3' : Char).toNat = 51 from rfl,
    show ('9' : Char).toNat = 57 from rfl]
  omega

theorem hourOk_iff (a b : Char) :
    hourOk a b =
      (a.isDigit && b.isDigit && decide (twoDigitVal a b ≤ 23)) := by
  rw [Bool.eq_iff_iff]
  simp only [hourOk, twoDigitVal, Bool.and_eq_true, Bool.or_eq_true, decide_eq_true_iff,
    char_beq_iff, char_le_iff, char_isDigit_iff,
    show ('0' : Char).toNat = 48 from rfl, show ('1' : Char).toNat = 49 from rfl,
    show ('2' : Char).toNat = 50 from rfl, show ('3' : Char).toNat = 51 from rfl]
  omega

theorem minSecOk_iff (a b : Char) :
    minSecOk a b =
      (a.isDigit && b.isDigit && decide (twoDigitVal a b ≤ 59)) := by
  rw [Bool.eq_iff_iff]
  simp only [minSecOk, twoDigitVal, Bool.and_eq_true, Bool.or_eq_true, decide_eq_true_iff,
    char_beq_iff, char_le_iff, char_isDigit_iff,
    show ('0' : Char).toNat = 48 from rfl, show ('5' : Char).toNat = 53 from rfl]
  omega

theorem regexFieldsOk_eq_spec (f : DateFields) : regexFieldsOk f = specFieldsOk f := by
  unfold regexFieldsOk specFieldsOk
  rw [monthOk_iff, dayOk_iff, hourOk_iff, minSecOk_iff, minSecOk_iff]

theorem matchesDatePattern_eq_spec (cs : List Char) :
    matchesDatePattern cs = specDateOk cs := by
  unfold matchesDatePattern specDateOk
  cases dateFields? cs with
  | none => rfl
  | some f => exact regexFieldsOk_eq_spec f

theorem is_invalid_date_cell_eq_spec (v : Value) :
    is_invalid_date_cell v = specDateInvalidCell v := by
  cases v with
  | vNA => rfl
  | vNum q => rfl
  | vStr s =>
    show (!(matchesDatePattern (trimWs s.data)) && true) = _
    rw [Bool.and_true, matchesDatePattern_eq_spec]
    rfl

/-! ### Octet arithmetic and IPv4 equivalence (claim C7) -/

theorem digitsVal_go (t : List Char) (a : Nat) :
    t.foldl (fun n c => 10 * n + (c.toNat - 48)) a = a * 10 ^ t.length + digitsVal t := by
  induction t generalizing a with
  | nil => simp [digitsVal]
  | cons c u ih =>
    rw [List.foldl_cons, ih (10 * a + (c.toNat - 48))]
    have h2 : digitsVal (c :: u) = (c.toNat - 48) * 10 ^ u.length + digitsVal u := by
      show u.foldl _ (10 * 0 + (c.toNat - 48)) = _
      rw [ih (10 * 0 + (c.toNat - 48))]
      ring
    rw [List.length_cons, h2]
    ring

theorem digitsVal_lower (c : Char) (u : List Char) (h : 1 ≤ c.toNat - 48) :
    10 ^ u.length ≤ digitsVal (c :: u) := by
  have h2 : digitsVal (c :: u) = (c.toNat - 48) * 10 ^ u.length + digitsVal u := by
    show u.foldl _ (10 * 0 + (c.toNat - 48)) = _
    rw [digitsVal_go]
    ring
  calc 10 ^ u.length = 1 * 10 ^ u.length := (Nat.one_mul _).symm
    _ ≤ (c.toNat - 48) * 10 ^ u.length := Nat.mul_le_mul_right _ h
    _ ≤ (c.toNat - 48) * 10 ^ u.length + digitsVal u := Nat.le_add_right _ _
    _ = digitsVal (c :: u) := h2.symm

theorem octet_length_le (t : List Char) (hne : t ≠ [])
    (hz : t = ['0'] ∨ ¬t.head? = some '0')
    (hdig : ∀ c ∈ t, c.isDigit = true) (hval : digitsVal t ≤ 255) :
    t.length ≤ 3 := by
  rcases hz with rfl | hz
  · simp
  · cases t with
    | nil => simp
    | cons c u =>
      by_contra hlen
      have hc : c.toNat ≠ 48 := by
        intro h48
        apply hz
        simp only [List.head?]
        rw [(char_eq_iff c '0').mpr (by rw [h48]; rfl)]
      have hcd := (char_isDigit_iff c).mp (hdig c (List.mem_cons_self _ _))
      have h1 : 1 ≤ c.toNat - 48 := by omega
      have h2 := digitsVal_lower c u h1
      have h3 : 3 ≤ u.length := by
        simp only [List.length_cons] at hlen
        omega
      have h4 : (10 : Nat) ^ 3 ≤ 10 ^ u.length := Nat.pow_le_pow_right (by norm_num) h3
      have h5 : (1000 : Nat) ≤ digitsVal (c :: u) := by
        calc (1000 : Nat) = 10 ^ 3 := by norm_num
          _ ≤ 10 ^ u.length := h4
          _ ≤ digitsVal (c :: u) := h2
      omega

theorem isValidOctet_eq_spec (t : List Char) : isValidOctet t = specOctetOk t := by
  rw [Bool.eq_iff_iff]
  unfold isValidOctet specOctetOk
  simp only [Bool.and_eq_true, Bool.or_eq_true, Bool.not_eq_true', decide_eq_true_iff,
    List.all_eq_true, List.isEmpty_eq_false, beq_eq_false_iff_ne, ne_eq,
    beq_iff_eq, List.isEmpty_iff]
  constructor
  · rintro ⟨⟨⟨⟨hne, hdig⟩, hlen⟩, hzero⟩, hval⟩
    refine ⟨⟨⟨hne, hdig⟩, hval⟩, ?_⟩
    by_cases hh : t.head? = some '0'
    · left
      rcases hzero with h1 | h1
      · cases t with
        | nil => exact absurd rfl hne
        | cons c u =>
          cases u with
          | nil =>
            simp only [List.head?] at hh
            injection hh with hh
            rw [hh]
          | cons c2 u2 => simp at h1
      · exact absurd hh h1
    · exact Or.inr hh
  · rintro ⟨⟨⟨hne, hdig⟩, hval⟩, hzero⟩
    refine ⟨⟨⟨⟨hne, hdig⟩, octet_length_le t hne hzero hdig hval⟩, ?_⟩, hval⟩
    rcases hzero with h1 | h1
    · left
      rw [h1]
      rfl
    · exact Or.inr h1

theorem isValidIPv4_eq_spec (cs : List Char) : isValidIPv4String cs = specIPv4Ok cs := by
  unfold isValidIPv4String specIPv4Ok
  cases h : splitDot cs with
  | nil => rfl
  | cons a l1 =>
    cases l1 with
    | nil => rfl
    | cons b l2 =>
      cases l2 with
      | nil => rfl
      | cons c l3 =>
        cases l3 with
        | nil => rfl
        | cons d l4 =>
          cases l4 with
          | nil => simp only [isValidOctet_eq_spec]
          | cons e l5 => rfl

theorem is_invalid_ipv4_cell_eq_spec (v : Value) :
    is_invalid_ipv4_cell v = specIPv4InvalidCell v := by
  cases v with
  | vNA => rfl
  | vNum q => rfl
  | vStr s =>
    show (!(isValidIPv4String (trimWs s.data))) = _
    rw [isValidIPv4_eq_spec]
    rfl

/-! ### Claims C5, C6, C7 -/

/-- C5: the date validator marks a cell invalid exactly when it is
non-missing and either not a string or its trimmed text fails the
fixed `YYYY-MM-DD HH:MM:SS` pattern with month 01-12, day 01-31
uniformly regardless of month, hours 00-23, minutes and seconds 00-59;
missing is never invalid.  In particular "2023-01-15 10:30:00" and
"2023-02-31 00:00:00" are not marked, while "2023-1-15 10:30:00" and
"2023-13-01 00:00:00" are. -/
theorem claim_C5 :
    (∀ series : List (Nat × Value),
      is_invalid_date series = series.map (fun iv => (iv.1, specDateInvalidCell iv.2))) ∧
    is_invalid_date_cell (Value.vStr "2023-01-15 10:30:00") = false ∧
    is_invalid_date_cell (Value.vStr "2023-1-15 10:30:00") = true ∧
    is_invalid_date_cell (Value.vStr "2023-13-01 00:00:00") = true ∧
    is_invalid_date_cell (Value.vStr "2023-02-31 00:00:00") = false ∧
    is_invalid_date_cell Value.vNA = false := by
  refine ⟨fun series => ?_, by decide, by decide, by decide, by decide, rfl⟩
  unfold is_invalid_date
  simp only [is_invalid_date_cell_eq_spec]

/-- C6: the positive-numeric validator marks a cell invalid exactly
when it fails to parse as a number while not missing, or parses to a
number at most zero; missing is never invalid.  In particular "4" is
valid while "0", "-2" and "abc" are invalid. -/
theorem claim_C6 :
    (∀ v : Value, is_invalid_positive_numeric_cell v = true ↔
      ((toNumeric v = none ∧ specMissing v = false) ∨ ∃ q, toNumeric v = some q ∧ q ≤ 0)) ∧
    (∀ series : List (Nat × Value),
      is_invalid_positive_numeric series =
        series.map (fun iv => (iv.1, is_invalid_positive_numeric_cell iv.2))) ∧
    is_invalid_positive_numeric_cell (Value.vStr "4") = false ∧
    is_invalid_positive_numeric_cell (Value.vStr "0") = true ∧
    is_invalid_positive_numeric_cell (Value.vStr "-2") = true ∧
    is_invalid_positive_numeric_cell (Value.vStr "abc") = true ∧
    is_invalid_positive_numeric_cell Value.vNA = false := by
  refine ⟨fun v => ?_, fun series => rfl, by decide, by decide, by decide, by decide, rfl⟩
  unfold is_invalid_positive_numeric_cell
  cases hn : toNumeric v with
  | none =>
    cases v with
    | vNA => simp [Value.notna, specMissing]
    | vStr s => simp [Value.notna, specMissing]
    | vNum q => simp [toNumeric] at hn
  | some q =>
    simp only [decide_eq_true_iff]
    constructor
    · intro h
      exact Or.inr ⟨q, rfl, h⟩
    · rintro (⟨h1, _⟩ | ⟨q2, hq2, hle⟩)
      · exact absurd h1 (by simp)
      · injection hq2 with hq2
        rw [hq2]
        exact hle

/-- C7: the IPv4 validator marks a cell invalid exactly when it is
non-missing and either not a string or its trimmed text is not a
dotted quad of octets 0-255 (digits only, no leading zero except "0"
itself); missing is never invalid.  In particular "192.168.1.1" is
valid while "256.1.1.1" and "abc" are invalid. -/
theorem claim_C7 :
    (∀ series : List (Nat × Value),
      is_invalid_ipv4 series = series.map (fun iv => (iv.1, specIPv4InvalidCell iv.2))) ∧
    is_invalid_ipv4_cell (Value.vStr "192.168.1.1") = false ∧
    is_invalid_ipv4_cell (Value.vStr "256.1.1.1") = true ∧
    is_invalid_ipv4_cell (Value.vStr "abc") = true ∧
    is_invalid_ipv4_cell Value.vNA = false := by
  refine ⟨fun series => ?_, by decide, by decide, by decide, rfl⟩
  unfold is_invalid_ipv4
  simp only [is_invalid_ipv4_cell_eq_spec]

/-! ### Fractional-seconds stripper (claim C8) -/

theorem takeWhile_append_of_all {α : Type} (p : α → Bool) (l1 l2 : List α)
    (h : ∀ a ∈ l1, p a = true) :
    List.takeWhile p (l1 ++ l2) = l1 ++ List.takeWhile p l2 := by
  induction l1 with
  | nil => simp
  | cons a t ih =>
    rw [List.cons_append, List.takeWhile_cons, h a (List.mem_cons_self _ _), if_pos rfl,
      ih (fun x hx => h x (List.mem_cons_of_mem _ hx)), List.cons_append]

theorem dropWhile_append_of_all {α : Type} (p : α → Bool) (l1 l2 : List α)
    (h : ∀ a ∈ l1, p a = true) :
    List.dropWhile p (l1 ++ l2) = List.dropWhile p l2 := by
  induction l1 with
  | nil => simp
  | cons a t ih =>
    rw [List.cons_append, List.dropWhile_cons, h a (List.mem_cons_self _ _)]
    exact ih (fun x hx => h x (List.mem_cons_of_mem _ hx))

theorem string_data_ext (s t : String) (h : s.data = t.data) : s = t :=
  String.ext h

theorem stripFracSuffix_strips (p : String) (ds : List Char) (hne : ds ≠ [])
    (hd : ∀ c ∈ ds, c.isDigit = true) :
    stripFracSuffix (p ++ "." ++ String.mk ds) = p := by
  unfold stripFracSuffix
  have hdata : (p ++ "." ++ String.mk ds).data = p.data ++ '.' :: ds := by
    rw [String.data_append, String.data_append]
    simp
  have hrev : (p ++ "." ++ String.mk ds).data.reverse = ds.reverse ++ '.' :: p.data.reverse := by
    rw [hdata, List.reverse_append]
    simp
  have hdrev : ∀ c ∈ ds.reverse, Char.isDigit c = true := by
    intro c hc
    exact hd c (List.mem_reverse.mp hc)
  have htw : ((p ++ "." ++ String.mk ds).data.reverse).takeWhile Char.isDigit = ds.reverse := by
    rw [hrev, takeWhile_append_of_all _ _ _ hdrev, List.takeWhile_cons]
    simp [Char.isDigit]
  have hdw : ((p ++ "." ++ String.mk ds).data.reverse).dropWhile Char.isDigit =
      '.' :: p.data.reverse := by
    rw [hrev, dropWhile_append_of_all _ _ _ hdrev, List.dropWhile_cons]
    simp [Char.isDigit]
  rw [if_pos]
  · rw [hdw]
    simp only [List.tail_cons, List.reverse_reverse]

  · refine ⟨?_, ?_⟩
    · rw [htw]
      simp [hne]
    · rw [hdw]
      rfl

theorem stripFracSuffix_id (s : String)
    (h : ∀ (p : String) (ds : List Char), ds ≠ [] → (∀ c ∈ ds, c.isDigit = true) →
      s ≠ p ++ "." ++ String.mk ds) :
    stripFracSuffix s = s := by
  unfold stripFracSuffix
  rw [if_neg]
  rintro ⟨htw, hdw⟩
  set r := s.data.reverse with hr
  have hsplit : r.takeWhile Char.isDigit ++ r.dropWhile Char.isDigit = r :=
    List.takeWhile_append_dropWhile _ _
  rcases hhead : r.dropWhile Char.isDigit with _ | ⟨c, t⟩
  · rw [hhead] at hdw
    exact Option.noConfusion hdw
  · rw [hhead] at hdw
    simp only [List.head?] at hdw
    injection hdw with hdw
    subst hdw
    have hds : s.data = t.reverse ++ '.' :: (r.takeWhile Char.isDigit).reverse := by
      have h2 : s.data = r.reverse := by rw [hr, List.reverse_reverse]
      have h3 : r = r.takeWhile Char.isDigit ++ '.' :: t := by
        conv_lhs => rw [← hsplit]
        rw [hhead]
      rw [h2]
      conv_lhs => rw [h3]
      simp
    refine h (String.mk t.reverse) ((r.takeWhile Char.isDigit).reverse) ?_ ?_ ?_
    · simp [htw]
    · intro c2 hc2
      exact List.mem_takeWhile_imp (List.mem_reverse.mp hc2)
    · apply string_data_ext
      rw [hds, String.data_append, String.data_append]
      simp

theorem stripColStep_getCol_ne (d : DFrame) (c2 c : String) (h : c ≠ c2) :
    (stripColStep d c2).getCol c = d.getCol c := by
  unfold stripColStep
  by_cases hp : (d.getCol c2).isSome
  · rw [if_pos hp]
    show assoc (updateCol d.cols c2 _) c = _
    rw [updateCol_assoc_ne _ _ _ _ h]
    rfl
  · rw [if_neg hp]

theorem stripColStep_getCol_self (d : DFrame) (c : String) :
    (stripColStep d c).getCol c = (d.getCol c).map (List.map stripCell) := by
  unfold stripColStep
  by_cases hp : (d.getCol c).isSome
  · rw [if_pos hp]
    show assoc (updateCol d.cols c _) c = _
    rw [updateCol_assoc_self]
    rfl
  · rw [if_neg hp]
    cases h : d.getCol c with
    | none => rfl
    | some vals =>
      rw [h] at hp
      simp at hp

theorem remove_micro_getCol_not_mem (c : String) :
    ∀ (cols : List String) (df : DFrame), c ∉ cols →
      (remove_microseconds_regex_inplace df cols).getCol c = df.getCol c := by
  intro cols
  induction cols with
  | nil => intro df _; rfl
  | cons c2 rest ih =>
    intro df hm
    have hne : c ≠ c2 := fun hx => hm (by rw [hx]; exact List.mem_cons_self _ _)
    show (remove_microseconds_regex_inplace (stripColStep df c2) rest).getCol c = _
    rw [ih _ (fun hx => hm (List.mem_cons_of_mem _ hx)),
      stripColStep_getCol_ne _ _ _ hne]

theorem remove_micro_getCol_mem (c : String) :
    ∀ (cols : List String) (df : DFrame), c ∈ cols → cols.Nodup →
      (remove_microseconds_regex_inplace df cols).getCol c =
        (df.getCol c).map (List.map stripCell) := by
  intro cols
  induction cols with
  | nil => intro df hm _; exact absurd hm (List.not_mem_nil _)
  | cons c2 rest ih =>
    intro df hm hnd
    have hn2 : c2 ∉ rest := (List.nodup_cons.mp hnd).1
    have hnr : rest.Nodup := (List.nodup_cons.mp hnd).2
    show (remove_microseconds_regex_inplace (stripColStep df c2) rest).getCol c = _
    rcases List.mem_cons.mp hm with hceq | hcr
    · subst hceq
      rw [remove_micro_getCol_not_mem c rest _ hn2, stripColStep_getCol_self]
    · have hne : c ≠ c2 := fun hx => hn2 (hx ▸ hcr)
      rw [ih _ hcr hnr, stripColStep_getCol_ne _ _ _ hne]

/-- C8 (amended, for lists of distinct column names): each listed
column present in the table has every cell replaced by the string form
of the cell (missing becomes empty) with one trailing dot-digits group
removed; columns not listed, and listed columns absent from the table,
are untouched.  A nonempty all-digit suffix preceded by a dot is
stripped; a string with no such suffix is unchanged; a column listed
more than once is transformed once per occurrence. -/
theorem claim_C8 (df : DFrame) (cols : List String) (hnd : cols.Nodup) :
    (∀ c ∈ cols, (remove_microseconds_regex_inplace df cols).getCol c =
      (df.getCol c).map (List.map stripCell)) ∧
    (∀ c, c ∉ cols → (remove_microseconds_regex_inplace df cols).getCol c = df.getCol c) ∧
    stripCell Value.vNA = Value.vStr "" ∧
    (∀ s, stripCell (Value.vStr s) = Value.vStr (stripFracSuffix s)) ∧
    (∀ (p : String) (ds : List Char), ds ≠ [] → (∀ c ∈ ds, c.isDigit = true) →
      stripFracSuffix (p ++ "." ++ String.mk ds) = p) ∧
    (∀ s, (∀ (p : String) (ds : List Char), ds ≠ [] → (∀ c ∈ ds, c.isDigit = true) →
      s ≠ p ++ "." ++ String.mk ds) → stripFracSuffix s = s) ∧
    stripCell (Value.vStr "2023-01-01 10:00:00.500") = Value.vStr "2023-01-01 10:00:00" :=
  ⟨fun c hc => remove_micro_getCol_mem c cols df hc hnd,
   fun c hc => remove_micro_getCol_not_mem c cols df hc,
   rfl, fun _ => rfl, stripFracSuffix_strips, stripFracSuffix_id, by decide⟩

/-- C8 (counterexample): with a duplicated column list the transform is
applied once per occurrence, so a multi-dot value loses two suffixes,
not the single trailing one the claim describes. -/
theorem claim_C8_counterexample :
    (remove_microseconds_regex_inplace dfC8 ["c", "c"]).getCol "c" =
      some [Value.vStr "1"] ∧
    (dfC8.getCol "c").map (List.map stripCell) = some [Value.vStr "1.2"] := by
  decide

/-! ### Claim C9: the default replacement value is itself invalid -/

/-- C9: every row holding the default replacement value, the single
space, gets a `true` mask entry from each of the three built-in
validators; consequently a second default pass over an
already-validated table re-replaces and re-records every previously
replaced cell (shown concretely over all seven default target
columns). -/
theorem claim_C9 (series : List (Nat × Value)) (i : Nat)
    (h : (i, Value.vStr " ") ∈ series) :
    (i, true) ∈ is_invalid_date series ∧
    (i, true) ∈ is_invalid_ipv4 series ∧
    (i, true) ∈ is_invalid_positive_numeric series ∧
    (apply_validations_inplace pandasOps dfC9 default_rules default_replacement).2 =
      reportC9 ∧
    (apply_validations_inplace pandasOps dfC9 default_rules default_replacement).1 = dfC9 := by
  refine ⟨?_, ?_, ?_, by decide, by decide⟩
  · exact List.mem_map.mpr ⟨(i, Value.vStr " "), h,
      by rw [show is_invalid_date_cell (Value.vStr " ") = true from by decide]⟩
  · exact List.mem_map.mpr ⟨(i, Value.vStr " "), h,
      by rw [show is_invalid_ipv4_cell (Value.vStr " ") = true from by decide]⟩
  · exact List.mem_map.mpr ⟨(i, Value.vStr " "), h,
      by rw [show is_invalid_positive_numeric_cell (Value.vStr " ") = true from by decide]⟩

/-- C9 witness at a concrete series. -/
theorem claim_C9_witness :
    ((0, Value.vStr " ") ∈ [(0, Value.vStr " ")] ∧
      (0, true) ∈ is_invalid_date [(0, Value.vStr " ")]) ∧
    (0, true) ∈ is_invalid_ipv4 [(0, Value.vStr " ")] ∧
    (0, true) ∈ is_invalid_positive_numeric [(0, Value.vStr " ")] :=
  have h := claim_C9 [(0, Value.vStr " ")] 0 (List.mem_singleton.mpr rfl)
  ⟨⟨List.mem_singleton.mpr rfl, h.1⟩, h.2.1, h.2.2.1⟩

/-! ### Witnesses -/

/-- C1 witness: the single IPv4 rule over a concrete two-row table. -/
theorem claim_C1_witness :
    dfW1.index.Nodup ∧
    ∃ vals2,
      (apply_validations_inplace pandasOps dfW1 [(ipv4Validator, ["ip"])]
        default_replacement).1.getCol "ip" = some vals2 ∧
      ∀ k, k < dfW1.index.length →
        (vals2[k]? = if (maskW1.map Prod.snd)[k]? = some true then some default_replacement
          else valsW1[k]?) ∧
        ((∃ rec ∈ reportRecs (apply_validations_inplace pandasOps dfW1
            [(ipv4Validator, ["ip"])] default_replacement).2 "ip",
            some rec.index = dfW1.index[k]?) ↔ (maskW1.map Prod.snd)[k]? = some true) :=
  ⟨by decide, claim_C1 dfW1 ipv4Validator "ip" default_replacement valsW1 maskW1
    (by decide) (by decide) (by decide) rfl (by decide)⟩

/-- C3 witness: the default rules never target column "a". -/
theorem claim_C3_witness :
    (∀ r ∈ default_rules, "a" ∉ r.2) ∧
    (apply_validations_inplace pandasOps dfW3 default_rules
      default_replacement).1.getCol "a" = dfW3.getCol "a" :=
  ⟨by decide, claim_C3 dfW3 default_rules default_replacement "a" (by decide)⟩

/-- C4 witness: one per-cell rule whose predicate accepts the
replacement value, over a concrete table. -/
theorem claim_C4_witness :
    (dfW4.WF ∧ ∀ r ∈ prsW4, r.1.pred (Value.vNum 1) = false) ∧
    (apply_validations_inplace pandasOps
      (apply_validations_inplace pandasOps dfW4 (toRules prsW4) (Value.vNum 1)).1
      (toRules prsW4) (Value.vNum 1)).2 = [] :=
  ⟨⟨by decide, by decide⟩, claim_C4 dfW4 prsW4 (Value.vNum 1) (by decide) (by decide)⟩

/-- C8 witness: the default timestamp column, stripped. -/
theorem claim_C8_witness :
    (["created_on"] : List String).Nodup ∧
    (remove_microseconds_regex_inplace dfW8 ["created_on"]).getCol "created_on" =
      (dfW8.getCol "created_on").map (List.map stripCell) :=
  ⟨by decide, (claim_C8 dfW8 ["created_on"] (by decide)).1 "created_on"
    (List.mem_singleton.mpr rfl)⟩
